import Mathlib

/-!
Verification of the real-time quiz-room session engine.

The source keeps two iterations of the engine.  The live wiring (the socket
service) routes quiz execution — start, answer submission, question advance,
leaderboard, completion — through the DoQuizService, and room membership
(creation, join, capacity, host checks) through the RoomService.  Both are
embedded below.  JavaScript Map objects (insertion-ordered, keyed by string)
are embedded as association lists whose update operation replaces in place or
appends, which matches Map.set semantics.  Wall-clock readings (Date.now) are
passed in explicitly as integer arguments.
-/

/-- Insertion-ordered string-keyed map, as used by the JS Map objects. -/
abbrev SMap (α : Type) := List (String × α)

/-- Map.get: first binding for the key, if any. -/
def mapGet {α : Type} : SMap α → String → Option α
  | [], _ => none
  | (k', v') :: rest, k => if k' = k then some v' else mapGet rest k

/-- Map.set: replace the binding in place if the key is present, else append. -/
def mapSet {α : Type} : SMap α → String → α → SMap α
  | [], k, v => [(k, v)]
  | (k', v') :: rest, k, v =>
      if k' = k then (k, v) :: rest else (k', v') :: mapSet rest k v

theorem mapGet_mapSet {α : Type} (m : SMap α) (k k' : String) (v : α) :
    mapGet (mapSet m k v) k' = if k = k' then some v else mapGet m k' := by
  induction m with
  | nil =>
      by_cases h : k = k' <;> simp [mapSet, mapGet, h]
  | cons p rest ih =>
      obtain ⟨k₀, v₀⟩ := p
      by_cases h₀ : k₀ = k
      · subst h₀
        by_cases h : k₀ = k' <;> simp [mapSet, mapGet, h]
      · by_cases h : k₀ = k'
        · subst h
          have : ¬ k = k₀ := fun hk => h₀ hk.symm
          simp [mapSet, mapGet, h₀, this]
        · simp [mapSet, mapGet, h₀, h, ih]

/-- An answer record as stored by the session engine: question index, chosen
option (−1 is the no-answer sentinel), correctness, elapsed milliseconds. -/
structure AnswerRecord where
  questionIndex : Nat
  answerIndex : Int
  isCorrect : Bool
  timeSpent : Int
deriving DecidableEq, Repr

/-- A question snapshot: text, four options, correct option index. -/
structure Question where
  questionText : String
  options : List String
  correctAnswerIndex : Int
deriving DecidableEq, Repr

/-- A participant as seen by the session engine (copy of the room entry). -/
structure Participant where
  playerId : String
  name : String
deriving DecidableEq, Repr

/-- The per-room quiz session held in DoQuizService.activeQuizzes. -/
structure QuizSession where
  quizTitle : String
  questions : List Question
  totalQuestions : Nat
  currentQuestionIndex : Nat
  questionStartTime : Int
  participants : SMap Participant
  isActive : Bool
  isCompleted : Bool
  questionDuration : Int
  scores : SMap Int
  answers : SMap (List AnswerRecord)
deriving DecidableEq, Repr

/-- Result payload of a successful answer submission. -/
structure SubmitResult where
  isCorrect : Bool
  timeSpent : Int
  currentScore : Int
  participantId : String
deriving DecidableEq, Repr

/-- Error outcomes thrown by the services, one constructor per thrown
message in the source. -/
inductive Err where
  | sessionNotFound
  | quizNotActive
  | participantNotFound
  | noActiveQuestion
  | roomNotFound
  | notHost
  | alreadyActive
  | noParticipants
  | quizEnded
  | roomFull
  | alreadyJoined
  | alreadyAnswered
deriving DecidableEq, Repr

/-- The error taxonomy of the specification. -/
inductive ErrClass where
  | notFound
  | conflict
  | forbidden
  | capacityExceeded
  | validationError
deriving DecidableEq, Repr

/-- Classification of each thrown error into the specification taxonomy. -/
def errClass : Err → ErrClass
  | .sessionNotFound => .notFound
  | .quizNotActive => .conflict
  | .participantNotFound => .notFound
  | .noActiveQuestion => .notFound
  | .roomNotFound => .notFound
  | .notHost => .forbidden
  | .alreadyActive => .conflict
  | .noParticipants => .conflict
  | .quizEnded => .conflict
  | .roomFull => .capacityExceeded
  | .alreadyJoined => .conflict
  | .alreadyAnswered => .conflict

instance exceptDecEq {e a : Type} [DecidableEq e] [DecidableEq a] :
    DecidableEq (Except e a) := fun x y =>
  match x, y with
  | .ok u, .ok v => if h : u = v then .isTrue (by rw [h]) else .isFalse (by simp [h])
  | .error u, .error v => if h : u = v then .isTrue (by rw [h]) else .isFalse (by simp [h])
  | .ok _, .error _ => .isFalse (by simp)
  | .error _, .ok _ => .isFalse (by simp)

/-- Answer records held for a player id, defaulting to the empty list
(the JS code reads answers.get(playerId) with a fallback to an empty array). -/
def recsOfMap (m : SMap (List AnswerRecord)) (pid : String) : List AnswerRecord :=
  (mapGet m pid).getD []

/-- Records of a player id inside a session. -/
def QuizSession.recsOf (s : QuizSession) (pid : String) : List AnswerRecord :=
  recsOfMap s.answers pid

/-- Score held for a player id, defaulting to 0 (scores.get(playerId) with a
fallback to 0). -/
def QuizSession.scoreOf (s : QuizSession) (pid : String) : Int :=
  (mapGet s.scores pid).getD 0

/-- Number of records for one question index. -/
def countIdx (recs : List AnswerRecord) (k : Nat) : Nat :=
  recs.countP (fun r => r.questionIndex = k)

/-- Number of correct records. -/
def countCorrect (recs : List AnswerRecord) : Nat :=
  recs.countP (fun r => r.isCorrect)

/-- Removal of the first record for a question index, mirroring
findIndex followed by splice in the resubmission path. -/
def removeFirstIdx (i : Nat) : List AnswerRecord → List AnswerRecord
  | [] => []
  | r :: rs => if r.questionIndex = i then rs else r :: removeFirstIdx i rs

/-- DoQuizService.startQuiz: fresh session, index 0, first question started
(questionStartTime set by startQuestion), participants copied, empty results. -/
def DoQuizService.startQuiz (quizTitle : String) (questions : List Question)
    (participants : SMap Participant) (now : Int) : QuizSession :=
  { quizTitle := quizTitle
    questions := questions
    totalQuestions := questions.length
    currentQuestionIndex := 0
    questionStartTime := now
    participants := participants
    isActive := true
    isCompleted := false
    questionDuration := 10000
    scores := []
    answers := [] }

/-- DoQuizService.submitAnswer.  Keyed reads and writes use the participant
player id.  A resubmission for the still-current question removes the prior
record and adjusts the score by the delta of the two correctness values;
a first submission appends and adds the correctness contribution. -/
def DoQuizService.submitAnswer (s : QuizSession) (participantId : String)
    (answerIndex : Int) (now : Int) : Except Err (QuizSession × SubmitResult) :=
  if s.isActive = false then .error .quizNotActive
  else match mapGet s.participants participantId with
  | none => .error .participantNotFound
  | some participant =>
    match s.questions[s.currentQuestionIndex]? with
    | none => .error .noActiveQuestion
    | some currentQuestion =>
      let participantAnswers := recsOfMap s.answers participant.playerId
      let isCorrect : Bool := answerIndex = currentQuestion.correctAnswerIndex
      let timeSpent : Int := now - s.questionStartTime
      let newRecord : AnswerRecord :=
        ⟨s.currentQuestionIndex, answerIndex, isCorrect, timeSpent⟩
      match participantAnswers.find? (fun a => a.questionIndex = s.currentQuestionIndex) with
      | some existingAnswer =>
        let pruned := removeFirstIdx s.currentQuestionIndex participantAnswers
        let currentScore := s.scoreOf participant.playerId
        let updatedScore := currentScore - (if existingAnswer.isCorrect then 1 else 0)
          + (if isCorrect then 1 else 0)
        .ok ({ s with
                scores := mapSet s.scores participant.playerId updatedScore
                answers := mapSet s.answers participant.playerId (pruned ++ [newRecord]) },
             ⟨isCorrect, timeSpent, updatedScore, participantId⟩)
      | none =>
        let currentScore := s.scoreOf participant.playerId
        let newScore := if isCorrect then currentScore + 1 else currentScore
        .ok ({ s with
                scores := mapSet s.scores participant.playerId newScore
                answers := mapSet s.answers participant.playerId
                  (participantAnswers ++ [newRecord]) },
             ⟨isCorrect, timeSpent, newScore, participantId⟩)

/-- The synthesized no-answer record: sentinel option −1, incorrect, elapsed
time equal to the full question duration. -/
def noAnswerRecord (i : Nat) (duration : Int) : AnswerRecord :=
  ⟨i, -1, false, duration⟩

/-- One iteration of saveNoAnswerForCurrentQuestion: if the participant lacks
a record for the current index, append the no-answer record. -/
def saveNoAnswerStep (i : Nat) (duration : Int) (m : SMap (List AnswerRecord))
    (pp : String × Participant) : SMap (List AnswerRecord) :=
  let recs := recsOfMap m pp.2.playerId
  if recs.any (fun a => a.questionIndex = i) then m
  else mapSet m pp.2.playerId (recs ++ [noAnswerRecord i duration])

/-- DoQuizService.saveNoAnswerForCurrentQuestion: for every participant
lacking a record for the current question index, synthesize one. -/
def DoQuizService.saveNoAnswerForCurrentQuestion (s : QuizSession) : QuizSession :=
  { s with answers :=
      s.participants.foldl (saveNoAnswerStep s.currentQuestionIndex s.questionDuration) s.answers }

/-- Per-participant final results entry. -/
structure ParticipantResult where
  playerId : String
  name : String
  score : Int
  totalQuestions : Nat
  answers : List AnswerRecord
deriving DecidableEq, Repr

/-- Final results computed by DoQuizService.endQuiz. -/
structure FinalResults where
  quizTitle : String
  totalQuestions : Nat
  participants : List ParticipantResult
deriving DecidableEq, Repr

/-- DoQuizService.endQuiz: detailed results per participant; the session is
removed from the active map by the caller of this computation. -/
def DoQuizService.endQuizResults (s : QuizSession) : FinalResults :=
  { quizTitle := s.quizTitle
    totalQuestions := s.totalQuestions
    participants := s.participants.map (fun pp =>
      { playerId := pp.2.playerId
        name := pp.2.name
        score := s.scoreOf pp.2.playerId
        totalQuestions := s.totalQuestions
        answers := s.recsOf pp.2.playerId }) }

/-- DoQuizService.nextQuestion: close out the current question by
synthesizing no-answer records, increment the index, then either start the
next question (left component) or complete the quiz (right component, the
session being deleted). -/
def DoQuizService.nextQuestion (s : QuizSession) (now : Int) :
    Option QuizSession × Option FinalResults :=
  let s₁ := DoQuizService.saveNoAnswerForCurrentQuestion s
  let s₂ := { s₁ with currentQuestionIndex := s₁.currentQuestionIndex + 1 }
  if s₂.totalQuestions ≤ s₂.currentQuestionIndex then
    (none, some (DoQuizService.endQuizResults s₂))
  else
    (some { s₂ with questionStartTime := now }, none)

/-- One leaderboard row. -/
structure LeaderboardEntry where
  playerId : String
  name : String
  score : Int
  totalQuestions : Nat
deriving DecidableEq, Repr

/-- The unsorted leaderboard rows, one per participant in join order. -/
def leaderboardEntries (s : QuizSession) : List LeaderboardEntry :=
  s.participants.map (fun pp =>
    { playerId := pp.2.playerId
      name := pp.2.name
      score := s.scoreOf pp.2.playerId
      totalQuestions := s.totalQuestions })

/-- Stable insertion of a row into a list sorted by non-increasing score: the
row goes after every row with a score at least as large.  Array.prototype.sort
with the comparator on scores is stable by the ECMAScript specification, and
the stable non-increasing reordering of a list is unique, so this insertion
sort is extensionally the sort performed by the source. -/
def insertByScoreDesc (x : LeaderboardEntry) : List LeaderboardEntry → List LeaderboardEntry
  | [] => [x]
  | y :: ys => if x.score ≤ y.score then y :: insertByScoreDesc x ys else x :: y :: ys

/-- Stable sort by non-increasing score. -/
def sortByScoreDesc (l : List LeaderboardEntry) : List LeaderboardEntry :=
  l.foldl (fun acc x => insertByScoreDesc x acc) []

/-- DoQuizService.getLeaderboard: every participant mapped to a row, sorted by
descending score (stable, hence join order on ties). -/
def DoQuizService.getLeaderboard (s : QuizSession) : List LeaderboardEntry :=
  sortByScoreDesc (leaderboardEntries s)

/-- The operations that mutate a live session: a successful answer submission,
or a question advance that does not complete the quiz.  (Completion removes
the session from the active map.) -/
inductive SessionStep : QuizSession → QuizSession → Prop
  | submit (s s' : QuizSession) (pid : String) (answerIndex : Int) (now : Int)
      (r : SubmitResult) (h : DoQuizService.submitAnswer s pid answerIndex now = .ok (s', r)) :
      SessionStep s s'
  | next (s s' : QuizSession) (now : Int)
      (h : DoQuizService.nextQuestion s now = (some s', none)) :
      SessionStep s s'

/-- Sessions reachable by the engine: created by startQuiz on a quiz with at
least one question (quiz validation guarantees this, and a session on an
empty question list is ended and removed immediately), then mutated by
submissions and advances. -/
inductive ReachableSession : QuizSession → Prop
  | start (quizTitle : String) (questions : List Question)
      (participants : SMap Participant) (now : Int) (h : questions ≠ []) :
      ReachableSession (DoQuizService.startQuiz quizTitle questions participants now)
  | step (s s' : QuizSession) (hs : ReachableSession s) (h : SessionStep s s') :
      ReachableSession s'

/-- The session invariant maintained by every engine operation. -/
def SessionInv (s : QuizSession) : Prop :=
  s.totalQuestions = s.questions.length ∧
  s.isActive = true ∧
  s.currentQuestionIndex < s.totalQuestions ∧
  (∀ pid, countIdx (s.recsOf pid) s.currentQuestionIndex ≤ 1) ∧
  (∀ pid r, r ∈ s.recsOf pid → r.questionIndex ≤ s.currentQuestionIndex) ∧
  (∀ p ∈ s.participants, ∀ k, k < s.currentQuestionIndex →
      countIdx (s.recsOf p.2.playerId) k = 1) ∧
  (∀ pid, s.scoreOf pid = (countCorrect (s.recsOf pid) : Int))

theorem countIdx_append (l₁ l₂ : List AnswerRecord) (k : Nat) :
    countIdx (l₁ ++ l₂) k = countIdx l₁ k + countIdx l₂ k := by
  simp [countIdx, List.countP_append]

theorem countCorrect_append (l₁ l₂ : List AnswerRecord) :
    countCorrect (l₁ ++ l₂) = countCorrect l₁ + countCorrect l₂ := by
  simp [countCorrect, List.countP_append]

theorem countIdx_nil (k : Nat) : countIdx [] k = 0 := rfl

theorem countIdx_singleton (r : AnswerRecord) (k : Nat) :
    countIdx [r] k = if r.questionIndex = k then 1 else 0 := by
  by_cases h : r.questionIndex = k <;> simp [countIdx, List.countP_cons, h]

theorem countIdx_eq_zero_iff (l : List AnswerRecord) (k : Nat) :
    countIdx l k = 0 ↔ ∀ r ∈ l, r.questionIndex ≠ k := by
  simp [countIdx, List.countP_eq_zero]

theorem countIdx_pos_of_find? (l : List AnswerRecord) (i : Nat) (e : AnswerRecord)
    (h : l.find? (fun a => a.questionIndex = i) = some e) : 1 ≤ countIdx l i := by
  have hmem := List.mem_of_find?_eq_some h
  have he : e.questionIndex = i := by simpa using List.find?_some h
  simp only [countIdx]
  exact List.countP_pos_iff.mpr ⟨e, hmem, by simpa using he⟩

theorem countIdx_cons (a : AnswerRecord) (l : List AnswerRecord) (k : Nat) :
    countIdx (a :: l) k = countIdx l k + (if a.questionIndex = k then 1 else 0) := by
  by_cases h : a.questionIndex = k <;> simp [countIdx, List.countP_cons, h]

theorem countCorrect_cons (a : AnswerRecord) (l : List AnswerRecord) :
    countCorrect (a :: l) = countCorrect l + (if a.isCorrect then 1 else 0) := by
  by_cases h : a.isCorrect <;> simp [countCorrect, List.countP_cons, h]

theorem removeFirstIdx_cons_pos (i : Nat) (a : AnswerRecord) (rest : List AnswerRecord)
    (ha : a.questionIndex = i) : removeFirstIdx i (a :: rest) = rest := by
  simp [removeFirstIdx, ha]

theorem removeFirstIdx_cons_neg (i : Nat) (a : AnswerRecord) (rest : List AnswerRecord)
    (ha : ¬ a.questionIndex = i) :
    removeFirstIdx i (a :: rest) = a :: removeFirstIdx i rest := by
  simp [removeFirstIdx, ha]

theorem removeFirstIdx_spec (i : Nat) (l : List AnswerRecord) (e : AnswerRecord)
    (h : l.find? (fun a => a.questionIndex = i) = some e) :
    (removeFirstIdx i l).length + 1 = l.length ∧
    countIdx (removeFirstIdx i l) i + 1 = countIdx l i ∧
    (∀ k, k ≠ i → countIdx (removeFirstIdx i l) k = countIdx l k) ∧
    countCorrect (removeFirstIdx i l) + (if e.isCorrect then 1 else 0) = countCorrect l ∧
    (∀ r, r ∈ removeFirstIdx i l → r ∈ l) := by
  induction l with
  | nil => simp at h
  | cons a rest ih =>
      by_cases ha : a.questionIndex = i
      · have hea : a = e := by simpa [ha] using h
        subst hea
        rw [removeFirstIdx_cons_pos i a rest ha]
        refine ⟨by simp, ?_, ?_, ?_, ?_⟩
        · rw [countIdx_cons, if_pos ha]
        · intro k hk
          have hak : ¬ a.questionIndex = k := by
            rw [ha]
            exact fun hh => hk hh.symm
          rw [countIdx_cons, if_neg hak]
          omega
        · rw [countCorrect_cons]
        · intro r hr
          exact List.mem_cons_of_mem a hr
      · rw [List.find?_cons_of_neg rest (by simpa using ha)] at h
        obtain ⟨h1, h2, h3, h4, h5⟩ := ih h
        rw [removeFirstIdx_cons_neg i a rest ha]
        refine ⟨by simp only [List.length_cons]; omega, ?_, ?_, ?_, ?_⟩
        · rw [countIdx_cons, countIdx_cons, if_neg ha]
          omega
        · intro k hk
          rw [countIdx_cons, countIdx_cons, h3 k hk]
        · rw [countCorrect_cons, countCorrect_cons]
          omega
        · intro r hr
          rcases List.mem_cons.mp hr with hr | hr
          · exact hr ▸ List.mem_cons_self a rest
          · exact List.mem_cons_of_mem a (h5 r hr)

theorem recsOfMap_mapSet (m : SMap (List AnswerRecord)) (k pid : String)
    (v : List AnswerRecord) :
    recsOfMap (mapSet m k v) pid = if k = pid then v else recsOfMap m pid := by
  by_cases h : k = pid <;> simp [recsOfMap, mapGet_mapSet, h]

theorem saveNoAnswerStep_recs (i : Nat) (dur : Int) (m : SMap (List AnswerRecord))
    (pp : String × Participant) (pid : String) :
    recsOfMap (saveNoAnswerStep i dur m pp) pid =
      if countIdx (recsOfMap m pp.2.playerId) i = 0 then
        (if pp.2.playerId = pid then recsOfMap m pid ++ [noAnswerRecord i dur]
         else recsOfMap m pid)
      else recsOfMap m pid := by
  have hiff : ((recsOfMap m pp.2.playerId).any (fun a => a.questionIndex = i) = true) ↔
      ¬ countIdx (recsOfMap m pp.2.playerId) i = 0 := by
    rw [countIdx_eq_zero_iff]
    simp [List.any_eq_true]
  by_cases hany : (recsOfMap m pp.2.playerId).any (fun a => a.questionIndex = i) = true
  · have hcount : ¬ countIdx (recsOfMap m pp.2.playerId) i = 0 := hiff.mp hany
    simp [saveNoAnswerStep, hany, hcount]
  · have hcount : countIdx (recsOfMap m pp.2.playerId) i = 0 := by
      by_contra hc
      exact hany (hiff.mpr hc)
    by_cases hpid : pp.2.playerId = pid
    · subst hpid
      simp [saveNoAnswerStep, hany, hcount, recsOfMap_mapSet]
    · simp [saveNoAnswerStep, hany, hcount, recsOfMap_mapSet, hpid]

theorem saveNoAnswer_fold_pointwise (i : Nat) (dur : Int) (ps : SMap Participant)
    (m : SMap (List AnswerRecord)) (pid : String) :
    recsOfMap (ps.foldl (saveNoAnswerStep i dur) m) pid = recsOfMap m pid ∨
    (countIdx (recsOfMap m pid) i = 0 ∧
     recsOfMap (ps.foldl (saveNoAnswerStep i dur) m) pid =
       recsOfMap m pid ++ [noAnswerRecord i dur]) := by
  induction ps generalizing m with
  | nil => exact .inl rfl
  | cons pp ps ih =>
      rw [List.foldl_cons]
      have hstep := saveNoAnswerStep_recs i dur m pp pid
      by_cases hc0 : countIdx (recsOfMap m pp.2.playerId) i = 0
      · by_cases hpid : pp.2.playerId = pid
        · rw [if_pos hc0, if_pos hpid] at hstep
          rcases ih (saveNoAnswerStep i dur m pp) with hsame | ⟨hz, happ⟩
          · right
            refine ⟨hpid ▸ hc0, by rw [hsame, hstep]⟩
          · rw [hstep, countIdx_append, countIdx_singleton] at hz
            simp [noAnswerRecord] at hz
        · rw [if_pos hc0, if_neg hpid] at hstep
          rcases ih (saveNoAnswerStep i dur m pp) with hsame | ⟨hz, happ⟩
          · exact .inl (by rw [hsame, hstep])
          · exact .inr ⟨by rw [hstep] at hz; exact hz, by rw [happ, hstep]⟩
      · rw [if_neg hc0] at hstep
        rcases ih (saveNoAnswerStep i dur m pp) with hsame | ⟨hz, happ⟩
        · exact .inl (by rw [hsame, hstep])
        · exact .inr ⟨by rw [hstep] at hz; exact hz, by rw [happ, hstep]⟩

theorem saveNoAnswer_fold_preserves_pos (i : Nat) (dur : Int) (ps : SMap Participant)
    (m : SMap (List AnswerRecord)) (pid : String)
    (h : 1 ≤ countIdx (recsOfMap m pid) i) :
    1 ≤ countIdx (recsOfMap (ps.foldl (saveNoAnswerStep i dur) m) pid) i := by
  rcases saveNoAnswer_fold_pointwise i dur ps m pid with hsame | ⟨hz, _⟩
  · rwa [hsame]
  · omega

theorem saveNoAnswer_fold_processed (i : Nat) (dur : Int) (ps : SMap Participant)
    (m : SMap (List AnswerRecord)) :
    ∀ pp ∈ ps, 1 ≤ countIdx (recsOfMap (ps.foldl (saveNoAnswerStep i dur) m) pp.2.playerId) i := by
  induction ps generalizing m with
  | nil => intro pp hpp; simp at hpp
  | cons qq ps ih =>
      intro pp hpp
      rw [List.foldl_cons]
      rcases List.mem_cons.mp hpp with hpp | hpp
      · subst hpp
        apply saveNoAnswer_fold_preserves_pos
        have hstep := saveNoAnswerStep_recs i dur m pp pp.2.playerId
        by_cases hc0 : countIdx (recsOfMap m pp.2.playerId) i = 0
        · rw [if_pos hc0, if_pos rfl] at hstep
          rw [hstep, countIdx_append, countIdx_singleton]
          simp [noAnswerRecord]
        · rw [if_neg hc0] at hstep
          rw [hstep]
          omega
      · exact ih (saveNoAnswerStep i dur m qq) pp hpp

/-- The pending answer list written by a successful submission: the prior
record for the current question is pruned when present, then the new record
is appended. -/
def submittedRecs (s : QuizSession) (key : String) (newRecord : AnswerRecord) :
    List AnswerRecord :=
  (match (recsOfMap s.answers key).find?
      (fun x => x.questionIndex = s.currentQuestionIndex) with
    | some _ => removeFirstIdx s.currentQuestionIndex (recsOfMap s.answers key)
    | none => recsOfMap s.answers key) ++ [newRecord]

/-- The score written by a successful submission. -/
def submittedScore (s : QuizSession) (key : String) (isCorrect : Bool) : Int :=
  match (recsOfMap s.answers key).find?
      (fun x => x.questionIndex = s.currentQuestionIndex) with
    | some e => s.scoreOf key - (if e.isCorrect then 1 else 0)
        + (if isCorrect then 1 else 0)
    | none => if isCorrect then s.scoreOf key + 1 else s.scoreOf key

theorem submitAnswer_ok_elim (s : QuizSession) (pid : String) (a now : Int)
    (s' : QuizSession) (r : SubmitResult)
    (h : DoQuizService.submitAnswer s pid a now = .ok (s', r)) :
    s.isActive = true ∧
    ∃ participant, mapGet s.participants pid = some participant ∧
    ∃ q, s.questions[s.currentQuestionIndex]? = some q ∧
      s'.quizTitle = s.quizTitle ∧
      s'.questions = s.questions ∧
      s'.totalQuestions = s.totalQuestions ∧
      s'.currentQuestionIndex = s.currentQuestionIndex ∧
      s'.questionStartTime = s.questionStartTime ∧
      s'.participants = s.participants ∧
      s'.isActive = s.isActive ∧
      s'.isCompleted = s.isCompleted ∧
      s'.questionDuration = s.questionDuration ∧
      r.isCorrect = decide (a = q.correctAnswerIndex) ∧
      r.timeSpent = now - s.questionStartTime ∧
      r.currentScore = submittedScore s participant.playerId (decide (a = q.correctAnswerIndex)) ∧
      s'.answers = mapSet s.answers participant.playerId
        (submittedRecs s participant.playerId
          ⟨s.currentQuestionIndex, a, decide (a = q.correctAnswerIndex), now - s.questionStartTime⟩) ∧
      s'.scores = mapSet s.scores participant.playerId
        (submittedScore s participant.playerId (decide (a = q.correctAnswerIndex))) := by
  unfold DoQuizService.submitAnswer at h
  split at h
  · exact absurd h (by simp)
  · rename_i hact
    have hact' : s.isActive = true := by
      revert hact
      cases s.isActive <;> simp
    split at h
    · exact absurd h (by simp)
    · rename_i participant hpart
      split at h
      · exact absurd h (by simp)
      · rename_i q hq
        refine ⟨hact', participant, hpart, q, hq, ?_⟩
        dsimp only at h
        split at h
        · rename_i e he
          rw [Except.ok.injEq, Prod.mk.injEq] at h
          obtain ⟨hss, hrr⟩ := h
          subst hss
          subst hrr
          refine ⟨rfl, rfl, rfl, rfl, rfl, rfl, rfl, rfl, rfl, rfl, rfl, ?_, ?_, ?_⟩
          · simp [QuizSession.scoreOf, submittedScore, QuizSession.recsOf, he]
          · simp [submittedRecs, he]
          · simp [submittedScore, he]
        · rename_i he
          rw [Except.ok.injEq, Prod.mk.injEq] at h
          obtain ⟨hss, hrr⟩ := h
          subst hss
          subst hrr
          refine ⟨rfl, rfl, rfl, rfl, rfl, rfl, rfl, rfl, rfl, rfl, rfl, ?_, ?_, ?_⟩
          · simp [QuizSession.scoreOf, submittedScore, QuizSession.recsOf, he]
          · simp [submittedRecs, he]
          · simp [submittedScore, he]

theorem getD_mapGet_mapSet {α : Type} (m : SMap α) (k w : String) (v d : α) :
    (mapGet (mapSet m k v) w).getD d = if k = w then v else (mapGet m w).getD d := by
  by_cases h : k = w <;> simp [mapGet_mapSet, h]

theorem countIdx_eq_zero_of_find?_none (l : List AnswerRecord) (i : Nat)
    (h : l.find? (fun a => a.questionIndex = i) = none) : countIdx l i = 0 := by
  rw [countIdx_eq_zero_iff]
  intro r hr
  simpa using List.find?_eq_none.mp h r hr

theorem sessionInv_start (quizTitle : String) (questions : List Question)
    (participants : SMap Participant) (now : Int) (h : questions ≠ []) :
    SessionInv (DoQuizService.startQuiz quizTitle questions participants now) := by
  refine ⟨rfl, rfl, ?_, ?_, ?_, ?_, ?_⟩
  · simpa [DoQuizService.startQuiz] using List.length_pos.mpr h
  · intro pid
    simp [QuizSession.recsOf, recsOfMap, DoQuizService.startQuiz, mapGet, countIdx]
  · intro pid r hr
    simp [QuizSession.recsOf, recsOfMap, DoQuizService.startQuiz, mapGet] at hr
  · intro p hp k hk
    simp [DoQuizService.startQuiz] at hk
  · intro pid
    simp [QuizSession.scoreOf, QuizSession.recsOf, recsOfMap, DoQuizService.startQuiz,
      mapGet, countCorrect]

theorem countIdx_singleton_pos (r : AnswerRecord) (k : Nat) (h : r.questionIndex = k) :
    countIdx [r] k = 1 := by
  rw [countIdx_singleton, if_pos h]

theorem countIdx_singleton_neg (r : AnswerRecord) (k : Nat) (h : ¬ r.questionIndex = k) :
    countIdx [r] k = 0 := by
  rw [countIdx_singleton, if_neg h]

theorem submittedRecs_spec (s : QuizSession) (key : String) (newRec : AnswerRecord)
    (hidx : newRec.questionIndex = s.currentQuestionIndex)
    (hC1 : countIdx (recsOfMap s.answers key) s.currentQuestionIndex ≤ 1) :
    countIdx (submittedRecs s key newRec) s.currentQuestionIndex ≤ 1 ∧
    (∀ k, k ≠ s.currentQuestionIndex →
      countIdx (submittedRecs s key newRec) k = countIdx (recsOfMap s.answers key) k) ∧
    (∀ x, x ∈ submittedRecs s key newRec → x ∈ recsOfMap s.answers key ∨ x = newRec) := by
  unfold submittedRecs
  cases hfind : (recsOfMap s.answers key).find?
      (fun x => x.questionIndex = s.currentQuestionIndex) with
  | some e =>
      obtain ⟨h1, h2, h3, h4, h5⟩ :=
        removeFirstIdx_spec s.currentQuestionIndex (recsOfMap s.answers key) e hfind
      dsimp only
      refine ⟨?_, ?_, ?_⟩
      · rw [countIdx_append, countIdx_singleton_pos newRec _ hidx]
        omega
      · intro k hk
        have hne : ¬ newRec.questionIndex = k := by
          rw [hidx]
          exact fun hh => hk hh.symm
        rw [countIdx_append, countIdx_singleton_neg newRec _ hne, h3 k hk]
        omega
      · intro x hx
        rcases List.mem_append.mp hx with hx | hx
        · exact .inl (h5 x hx)
        · exact .inr (by simpa using hx)
  | none =>
      have hz : countIdx (recsOfMap s.answers key) s.currentQuestionIndex = 0 :=
        countIdx_eq_zero_of_find?_none _ _ hfind
      dsimp only
      refine ⟨?_, ?_, ?_⟩
      · rw [countIdx_append, countIdx_singleton_pos newRec _ hidx]
        omega
      · intro k hk
        have hne : ¬ newRec.questionIndex = k := by
          rw [hidx]
          exact fun hh => hk hh.symm
        rw [countIdx_append, countIdx_singleton_neg newRec _ hne]
        omega
      · intro x hx
        rcases List.mem_append.mp hx with hx | hx
        · exact .inl hx
        · exact .inr (by simpa using hx)

theorem submittedScore_eq_countCorrect (s : QuizSession) (key : String)
    (newRec : AnswerRecord) (b : Bool) (hb : newRec.isCorrect = b)
    (hScore : s.scoreOf key = (countCorrect (recsOfMap s.answers key) : Int)) :
    submittedScore s key b = (countCorrect (submittedRecs s key newRec) : Int) := by
  unfold submittedRecs submittedScore
  have hone : countCorrect [newRec] = if b then 1 else 0 := by
    cases b <;> simp [countCorrect, List.countP_cons, hb]
  cases hfind : (recsOfMap s.answers key).find?
      (fun x => x.questionIndex = s.currentQuestionIndex) with
  | some e =>
      obtain ⟨h1, h2, h3, h4, h5⟩ :=
        removeFirstIdx_spec s.currentQuestionIndex (recsOfMap s.answers key) e hfind
      dsimp only
      rw [countCorrect_append, hone, hScore]
      rcases Bool.eq_false_or_eq_true e.isCorrect with hbe | hbe <;>
        rcases Bool.eq_false_or_eq_true b with hbb | hbb <;>
          · subst hbb
            simp [hbe] at h4 ⊢
            try push_cast
            try omega
  | none =>
      dsimp only
      rw [countCorrect_append, hone, hScore]
      rcases Bool.eq_false_or_eq_true b with hbb | hbb <;>
        · subst hbb
          simp
          try push_cast
          try omega

theorem sessionInv_submit (s : QuizSession) (pid : String) (a now : Int)
    (s' : QuizSession) (r : SubmitResult) (hinv : SessionInv s)
    (h : DoQuizService.submitAnswer s pid a now = .ok (s', r)) : SessionInv s' := by
  obtain ⟨hTQ, hAct, hLt, hC1, hUB, hPrev, hScore⟩ := hinv
  obtain ⟨hA, participant, hpart, q, hq, hQT, hQS, hTQ', hCQ, hQST, hP, hIA, hIC, hQD,
    hRC, hRT, hRS, hAns, hSc⟩ := submitAnswer_ok_elim s pid a now s' r h
  have hrecs : ∀ w, s'.recsOf w =
      if participant.playerId = w then
        submittedRecs s participant.playerId
          ⟨s.currentQuestionIndex, a, decide (a = q.correctAnswerIndex),
            now - s.questionStartTime⟩
      else s.recsOf w := by
    intro w
    rw [QuizSession.recsOf, hAns, recsOfMap_mapSet]
    rfl
  have hscores : ∀ w, s'.scoreOf w =
      if participant.playerId = w then
        submittedScore s participant.playerId (decide (a = q.correctAnswerIndex))
      else s.scoreOf w := by
    intro w
    rw [QuizSession.scoreOf, hSc, getD_mapGet_mapSet]
    rfl
  obtain ⟨hs1, hs2, hs3⟩ := submittedRecs_spec s participant.playerId
    ⟨s.currentQuestionIndex, a, decide (a = q.correctAnswerIndex), now - s.questionStartTime⟩
    rfl (hC1 participant.playerId)
  refine ⟨by rw [hTQ', hQS]; exact hTQ, by rw [hIA]; exact hA, by rw [hCQ, hTQ']; exact hLt,
    ?_, ?_, ?_, ?_⟩
  · intro w
    rw [hrecs w, hCQ]
    by_cases hw : participant.playerId = w
    · rw [if_pos hw]
      exact hs1
    · rw [if_neg hw]
      exact hC1 w
  · intro w x hx
    rw [hCQ]
    rw [hrecs w] at hx
    by_cases hw : participant.playerId = w
    · rw [if_pos hw] at hx
      rcases hs3 x hx with hm | hm
      · exact hUB participant.playerId x hm
      · rw [hm]
    · rw [if_neg hw] at hx
      exact hUB w x hx
  · intro p hp k hk
    rw [hP] at hp
    rw [hCQ] at hk
    rw [hrecs p.2.playerId]
    by_cases hw : participant.playerId = p.2.playerId
    · rw [if_pos hw]
      have hk' : k ≠ s.currentQuestionIndex := by omega
      have hcnt := hs2 k hk'
      rw [hcnt, hw]
      exact hPrev p hp k hk
    · rw [if_neg hw]
      exact hPrev p hp k hk
  · intro w
    rw [hrecs w, hscores w]
    by_cases hw : participant.playerId = w
    · rw [if_pos hw, if_pos hw]
      exact submittedScore_eq_countCorrect s participant.playerId _ _ rfl
        (hScore participant.playerId)
    · rw [if_neg hw, if_neg hw]
      exact hScore w

theorem countIdx_append_noAnswer (l : List AnswerRecord) (i k : Nat) (dur : Int)
    (hk : k ≠ i) : countIdx (l ++ [noAnswerRecord i dur]) k = countIdx l k := by
  rw [countIdx_append, countIdx_singleton_neg _ _ (by
    simp only [noAnswerRecord]
    exact fun hh => hk hh.symm)]
  omega

theorem countCorrect_append_noAnswer (l : List AnswerRecord) (i : Nat) (dur : Int) :
    countCorrect (l ++ [noAnswerRecord i dur]) = countCorrect l := by
  rw [countCorrect_append]
  simp [countCorrect, noAnswerRecord]

theorem saveNoAnswer_recsOf (s : QuizSession) (pid : String) :
    (DoQuizService.saveNoAnswerForCurrentQuestion s).recsOf pid = s.recsOf pid ∨
    (countIdx (s.recsOf pid) s.currentQuestionIndex = 0 ∧
     (DoQuizService.saveNoAnswerForCurrentQuestion s).recsOf pid =
       s.recsOf pid ++ [noAnswerRecord s.currentQuestionIndex s.questionDuration]) :=
  saveNoAnswer_fold_pointwise s.currentQuestionIndex s.questionDuration
    s.participants s.answers pid

theorem saveNoAnswer_processed (s : QuizSession) (p : String × Participant)
    (hp : p ∈ s.participants) :
    1 ≤ countIdx ((DoQuizService.saveNoAnswerForCurrentQuestion s).recsOf p.2.playerId)
      s.currentQuestionIndex :=
  saveNoAnswer_fold_processed s.currentQuestionIndex s.questionDuration
    s.participants s.answers p hp

theorem sessionInv_next (s : QuizSession) (now : Int) (s' : QuizSession)
    (hinv : SessionInv s) (h : DoQuizService.nextQuestion s now = (some s', none)) :
    SessionInv s' := by
  obtain ⟨hTQ, hAct, hLt, hC1, hUB, hPrev, hScore⟩ := hinv
  unfold DoQuizService.nextQuestion at h
  dsimp only at h
  split at h
  · simp at h
  · rename_i hlt
    rw [Prod.mk.injEq] at h
    obtain ⟨h1, _⟩ := h
    rw [Option.some.injEq] at h1
    have hlt' : ¬ (s.totalQuestions ≤ s.currentQuestionIndex + 1) := hlt
    have hCQ : s'.currentQuestionIndex = s.currentQuestionIndex + 1 := by
      rw [← h1]
      rfl
    have hTQ2 : s'.totalQuestions = s.totalQuestions := by
      rw [← h1]
      rfl
    have hQS2 : s'.questions = s.questions := by
      rw [← h1]
      rfl
    have hIA2 : s'.isActive = s.isActive := by
      rw [← h1]
      rfl
    have hP2 : s'.participants = s.participants := by
      rw [← h1]
      rfl
    have hSc2 : s'.scores = s.scores := by
      rw [← h1]
      rfl
    have hAns2 : s'.answers = (DoQuizService.saveNoAnswerForCurrentQuestion s).answers := by
      rw [← h1]
    have hrecs : ∀ w, s'.recsOf w =
        (DoQuizService.saveNoAnswerForCurrentQuestion s).recsOf w := by
      intro w
      rw [QuizSession.recsOf, hAns2]
      rfl
    have hscoreOf : ∀ w, s'.scoreOf w = s.scoreOf w := by
      intro w
      rw [QuizSession.scoreOf, hSc2]
      rfl
    have hub1 : ∀ w x, x ∈ (DoQuizService.saveNoAnswerForCurrentQuestion s).recsOf w →
        x.questionIndex ≤ s.currentQuestionIndex := by
      intro w x hx
      rcases saveNoAnswer_recsOf s w with hsame | ⟨hz, happ⟩
      · exact hUB w x (hsame ▸ hx)
      · rw [happ] at hx
        rcases List.mem_append.mp hx with hx | hx
        · exact hUB w x hx
        · rw [show x = noAnswerRecord s.currentQuestionIndex s.questionDuration from by
            simpa using hx]
          exact Nat.le_refl _
    refine ⟨?_, ?_, ?_, ?_, ?_, ?_, ?_⟩
    · rw [hTQ2, hQS2]
      exact hTQ
    · rw [hIA2]
      exact hAct
    · rw [hCQ, hTQ2]
      omega
    · intro w
      rw [hrecs w, hCQ]
      have hzero : countIdx ((DoQuizService.saveNoAnswerForCurrentQuestion s).recsOf w)
          (s.currentQuestionIndex + 1) = 0 := by
        rw [countIdx_eq_zero_iff]
        intro x hx
        have := hub1 w x hx
        omega
      omega
    · intro w x hx
      rw [hCQ]
      rw [hrecs w] at hx
      have := hub1 w x hx
      omega
    · intro p hp k hk
      rw [hP2] at hp
      rw [hCQ] at hk
      rw [hrecs p.2.playerId]
      by_cases hkc : k = s.currentQuestionIndex
      · rw [hkc]
        have hge := saveNoAnswer_processed s p hp
        have hle : countIdx ((DoQuizService.saveNoAnswerForCurrentQuestion s).recsOf
            p.2.playerId) s.currentQuestionIndex ≤ 1 := by
          rcases saveNoAnswer_recsOf s p.2.playerId with hsame | ⟨hz, happ⟩
          · rw [hsame]
            exact hC1 p.2.playerId
          · rw [happ, countIdx_append,
              countIdx_singleton_pos (noAnswerRecord s.currentQuestionIndex s.questionDuration)
                s.currentQuestionIndex rfl, hz]
        omega
      · have hkcur : k < s.currentQuestionIndex := by omega
        rcases saveNoAnswer_recsOf s p.2.playerId with hsame | ⟨hz, happ⟩
        · rw [hsame]
          exact hPrev p hp k hkcur
        · rw [happ, countIdx_append_noAnswer _ _ _ _ hkc]
          exact hPrev p hp k hkcur
    · intro w
      rw [hscoreOf w, hrecs w]
      rcases saveNoAnswer_recsOf s w with hsame | ⟨hz, happ⟩
      · rw [hsame]
        exact hScore w
      · rw [happ, countCorrect_append_noAnswer]
        exact hScore w

theorem reachableSession_inv (s : QuizSession) (h : ReachableSession s) : SessionInv s := by
  induction h with
  | start quizTitle questions participants now hne =>
      exact sessionInv_start quizTitle questions participants now hne
  | step s s' hs hstep ih =>
      cases hstep with
      | submit pid a now r hok => exact sessionInv_submit s pid a now s' r ih hok
      | next now hok => exact sessionInv_next s now s' ih hok

theorem length_eq_sum_countIdx (recs : List AnswerRecord) (N : Nat)
    (h : ∀ r ∈ recs, r.questionIndex < N) :
    recs.length = ∑ k ∈ Finset.range N, countIdx recs k := by
  induction recs with
  | nil => simp [countIdx]
  | cons a rest ih =>
      have ha : a.questionIndex < N := h a (List.mem_cons_self a rest)
      have ih' := ih (fun r hr => h r (List.mem_cons_of_mem a hr))
      simp only [List.length_cons, countIdx_cons]
      rw [Finset.sum_add_distrib, ← ih']
      have hsum : ∑ k ∈ Finset.range N, (if a.questionIndex = k then 1 else 0) = 1 := by
        rw [Finset.sum_ite_eq (Finset.range N) a.questionIndex (fun _ => 1)]
        simp [ha]
      omega

theorem countCorrect_le_length (recs : List AnswerRecord) :
    countCorrect recs ≤ recs.length :=
  List.countP_le_length _

theorem saveNoAnswer_counts_of_inv (s : QuizSession) (hinv : SessionInv s)
    (p : String × Participant) (hp : p ∈ s.participants) :
    (∀ k, k ≤ s.currentQuestionIndex →
      countIdx ((DoQuizService.saveNoAnswerForCurrentQuestion s).recsOf p.2.playerId) k = 1) ∧
    (∀ x, x ∈ (DoQuizService.saveNoAnswerForCurrentQuestion s).recsOf p.2.playerId →
      x.questionIndex ≤ s.currentQuestionIndex) := by
  obtain ⟨hTQ, hAct, hLt, hC1, hUB, hPrev, hScore⟩ := hinv
  constructor
  · intro k hk
    by_cases hkc : k = s.currentQuestionIndex
    · rw [hkc]
      have hge := saveNoAnswer_processed s p hp
      have hle : countIdx ((DoQuizService.saveNoAnswerForCurrentQuestion s).recsOf
          p.2.playerId) s.currentQuestionIndex ≤ 1 := by
        rcases saveNoAnswer_recsOf s p.2.playerId with hsame | ⟨hz, happ⟩
        · rw [hsame]
          exact hC1 p.2.playerId
        · rw [happ, countIdx_append,
            countIdx_singleton_pos (noAnswerRecord s.currentQuestionIndex s.questionDuration)
              s.currentQuestionIndex rfl, hz]
      omega
    · have hkcur : k < s.currentQuestionIndex := by omega
      rcases saveNoAnswer_recsOf s p.2.playerId with hsame | ⟨hz, happ⟩
      · rw [hsame]
        exact hPrev p hp k hkcur
      · rw [happ, countIdx_append_noAnswer _ _ _ _ hkc]
        exact hPrev p hp k hkcur
  · intro x hx
    rcases saveNoAnswer_recsOf s p.2.playerId with hsame | ⟨hz, happ⟩
    · exact hUB p.2.playerId x (hsame ▸ hx)
    · rw [happ] at hx
      rcases List.mem_append.mp hx with hx | hx
      · exact hUB p.2.playerId x hx
      · rw [show x = noAnswerRecord s.currentQuestionIndex s.questionDuration from by
          simpa using hx]
        exact Nat.le_refl _

theorem nextQuestion_complete_elim (s : QuizSession) (now : Int) (res : FinalResults)
    (h : DoQuizService.nextQuestion s now = (none, some res)) :
    s.totalQuestions ≤ s.currentQuestionIndex + 1 ∧
    res = DoQuizService.endQuizResults
      { DoQuizService.saveNoAnswerForCurrentQuestion s with
        currentQuestionIndex := s.currentQuestionIndex + 1 } := by
  unfold DoQuizService.nextQuestion at h
  dsimp only at h
  split at h
  · rename_i hle
    rw [Prod.mk.injEq] at h
    obtain ⟨_, h2⟩ := h
    rw [Option.some.injEq] at h2
    exact ⟨hle, h2.symm⟩
  · simp at h

/-- Claim C1: for every reachable session that reaches completion, every
participant in the final results has exactly totalQuestions answer records,
one per question index covering 0..totalQuestions−1; and the close-out
synthesizes the no-answer record (sentinel −1, incorrect, full duration) for
every participant lacking a record for the just-closed index. -/
theorem completion_answer_sheets_complete (s : QuizSession) (hs : ReachableSession s)
    (now : Int) (res : FinalResults)
    (h : DoQuizService.nextQuestion s now = (none, some res)) :
    (∀ pr ∈ res.participants, pr.answers.length = res.totalQuestions ∧
      ∀ k, k < res.totalQuestions → countIdx pr.answers k = 1) ∧
    (∀ p ∈ s.participants,
      countIdx (s.recsOf p.2.playerId) s.currentQuestionIndex = 0 →
      (DoQuizService.saveNoAnswerForCurrentQuestion s).recsOf p.2.playerId =
        s.recsOf p.2.playerId ++
          [noAnswerRecord s.currentQuestionIndex s.questionDuration]) := by
  have hinv := reachableSession_inv s hs
  obtain ⟨hle, hres⟩ := nextQuestion_complete_elim s now res h
  have htot : s.totalQuestions = s.currentQuestionIndex + 1 := by
    have := hinv.2.2.1
    omega
  constructor
  · intro pr hpr
    have hparts : res.participants = s.participants.map (fun pp =>
        ({ playerId := pp.2.playerId
           name := pp.2.name
           score := (DoQuizService.saveNoAnswerForCurrentQuestion s).scoreOf pp.2.playerId
           totalQuestions := s.totalQuestions
           answers := (DoQuizService.saveNoAnswerForCurrentQuestion s).recsOf pp.2.playerId }
          : ParticipantResult)) := by
      rw [hres]
      rfl
    have htq : res.totalQuestions = s.totalQuestions := by
      rw [hres]
      rfl
    rw [hparts] at hpr
    obtain ⟨pp, hpp, hentry⟩ := List.mem_map.mp hpr
    obtain ⟨hcounts, hub⟩ := saveNoAnswer_counts_of_inv s hinv pp hpp
    have hanswers : pr.answers =
        (DoQuizService.saveNoAnswerForCurrentQuestion s).recsOf pp.2.playerId := by
      rw [← hentry]
    constructor
    · rw [hanswers, htq, htot]
      have hub' : ∀ r ∈ (DoQuizService.saveNoAnswerForCurrentQuestion s).recsOf pp.2.playerId,
          r.questionIndex < s.currentQuestionIndex + 1 := by
        intro r hr
        have := hub r hr
        omega
      rw [length_eq_sum_countIdx _ (s.currentQuestionIndex + 1) hub']
      calc ∑ k ∈ Finset.range (s.currentQuestionIndex + 1),
            countIdx ((DoQuizService.saveNoAnswerForCurrentQuestion s).recsOf pp.2.playerId) k
          = ∑ k ∈ Finset.range (s.currentQuestionIndex + 1), 1 :=
            Finset.sum_congr rfl (fun k hk =>
              hcounts k (by have := Finset.mem_range.mp hk; omega))
        _ = s.currentQuestionIndex + 1 := by simp
    · intro k hk
      rw [hanswers]
      rw [htq, htot] at hk
      exact hcounts k (by omega)
  · intro p hp hzero
    rcases saveNoAnswer_recsOf s p.2.playerId with hsame | ⟨_, happ⟩
    · exfalso
      have hge := saveNoAnswer_processed s p hp
      rw [hsame] at hge
      omega
    · exact happ

theorem reachable_countIdx_le_one (s : QuizSession) (hs : ReachableSession s)
    (p : String × Participant) (hp : p ∈ s.participants) (k : Nat) :
    countIdx (s.recsOf p.2.playerId) k ≤ 1 := by
  obtain ⟨hTQ, hAct, hLt, hC1, hUB, hPrev, hScore⟩ := reachableSession_inv s hs
  by_cases hk : k = s.currentQuestionIndex
  · rw [hk]
    exact hC1 _
  · by_cases hk2 : k < s.currentQuestionIndex
    · rw [hPrev p hp k hk2]
    · have hzero : countIdx (s.recsOf p.2.playerId) k = 0 := by
        rw [countIdx_eq_zero_iff]
        intro x hx
        have := hUB p.2.playerId x hx
        omega
      omega

/-- Claim C4: in every reachable session state, a participant's cumulative
score equals the number of that participant's answer records with
isCorrect set, and therefore never exceeds totalQuestions. -/
theorem score_eq_correct_count_and_bounded (s : QuizSession) (hs : ReachableSession s) :
    ∀ p ∈ s.participants,
      s.scoreOf p.2.playerId = (countCorrect (s.recsOf p.2.playerId) : Int) ∧
      s.scoreOf p.2.playerId ≤ (s.totalQuestions : Int) := by
  intro p hp
  obtain ⟨hTQ, hAct, hLt, hC1, hUB, hPrev, hScore⟩ := reachableSession_inv s hs
  refine ⟨hScore p.2.playerId, ?_⟩
  rw [hScore p.2.playerId]
  have hub : ∀ x ∈ s.recsOf p.2.playerId, x.questionIndex < s.totalQuestions := by
    intro x hx
    have := hUB p.2.playerId x hx
    omega
  have hlen := length_eq_sum_countIdx (s.recsOf p.2.playerId) s.totalQuestions hub
  have hsum : ∑ k ∈ Finset.range s.totalQuestions, countIdx (s.recsOf p.2.playerId) k ≤
      s.totalQuestions := by
    calc ∑ k ∈ Finset.range s.totalQuestions, countIdx (s.recsOf p.2.playerId) k
        ≤ ∑ k ∈ Finset.range s.totalQuestions, 1 :=
          Finset.sum_le_sum (fun k _ => reachable_countIdx_le_one s hs p hp k)
      _ = s.totalQuestions := by simp
  have hcc := countCorrect_le_length (s.recsOf p.2.playerId)
  omega

/-- Claim C2: at most one answer record per participant and question index;
a resubmission for the still-open question replaces the prior record (record
count unchanged, still exactly one record for the index, the new option
stored) and the score changes by the delta between old and new correctness. -/
theorem resubmission_replaces_and_adjusts_score (s : QuizSession)
    (hs : ReachableSession s) :
    (∀ p ∈ s.participants, ∀ k, countIdx (s.recsOf p.2.playerId) k ≤ 1) ∧
    (∀ pid part e a now s' r,
      mapGet s.participants pid = some part →
      (s.recsOf part.playerId).find?
        (fun x => x.questionIndex = s.currentQuestionIndex) = some e →
      DoQuizService.submitAnswer s pid a now = .ok (s', r) →
      (s'.recsOf part.playerId).length = (s.recsOf part.playerId).length ∧
      countIdx (s'.recsOf part.playerId) s.currentQuestionIndex = 1 ∧
      (⟨s.currentQuestionIndex, a, r.isCorrect, r.timeSpent⟩ : AnswerRecord) ∈
        s'.recsOf part.playerId ∧
      s'.scoreOf part.playerId = s.scoreOf part.playerId
        - (if e.isCorrect then 1 else 0) + (if r.isCorrect then 1 else 0)) := by
  constructor
  · exact fun p hp k => reachable_countIdx_le_one s hs p hp k
  · intro pid part e a now s' r hpart hfind hok
    obtain ⟨hA, participant, hpart2, q, hq, hQT, hQS, hTQ2, hCQ, hQST, hP, hIA, hIC, hQD,
      hRC, hRT, hRS, hAns, hSc⟩ := submitAnswer_ok_elim s pid a now s' r hok
    have hsamepart : participant = part := by
      rw [hpart] at hpart2
      exact (Option.some.injEq _ _).mp hpart2.symm
    subst hsamepart
    have hC1 := (reachableSession_inv s hs).2.2.2.1 participant.playerId
    have hrecs : s'.recsOf participant.playerId =
        submittedRecs s participant.playerId
          ⟨s.currentQuestionIndex, a, decide (a = q.correctAnswerIndex),
            now - s.questionStartTime⟩ := by
      rw [QuizSession.recsOf, hAns, recsOfMap_mapSet, if_pos rfl]
    have hscore : s'.scoreOf participant.playerId =
        submittedScore s participant.playerId (decide (a = q.correctAnswerIndex)) := by
      rw [QuizSession.scoreOf, hSc, getD_mapGet_mapSet, if_pos rfl]
    have hfind' : (recsOfMap s.answers participant.playerId).find?
        (fun x => x.questionIndex = s.currentQuestionIndex) = some e := hfind
    obtain ⟨h1, h2, h3, h4, h5⟩ :=
      removeFirstIdx_spec s.currentQuestionIndex (recsOfMap s.answers participant.playerId)
        e hfind'
    have hone : countIdx (recsOfMap s.answers participant.playerId)
        s.currentQuestionIndex = 1 := by
      have hpos := countIdx_pos_of_find? _ _ _ hfind'
      have hle1 : countIdx (recsOfMap s.answers participant.playerId)
          s.currentQuestionIndex ≤ 1 := hC1
      omega
    have hsubrecs : submittedRecs s participant.playerId
        ⟨s.currentQuestionIndex, a, decide (a = q.correctAnswerIndex),
          now - s.questionStartTime⟩ =
        removeFirstIdx s.currentQuestionIndex (recsOfMap s.answers participant.playerId) ++
          [⟨s.currentQuestionIndex, a, decide (a = q.correctAnswerIndex),
            now - s.questionStartTime⟩] := by
      unfold submittedRecs
      rw [hfind']
    have hsubscore : submittedScore s participant.playerId
        (decide (a = q.correctAnswerIndex)) =
        s.scoreOf participant.playerId - (if e.isCorrect then 1 else 0)
          + (if decide (a = q.correctAnswerIndex) then 1 else 0) := by
      unfold submittedScore
      rw [hfind']
    refine ⟨?_, ?_, ?_, ?_⟩
    · rw [hrecs, hsubrecs]
      simp only [List.length_append, List.length_singleton]
      have : (s.recsOf participant.playerId).length =
          (recsOfMap s.answers participant.playerId).length := rfl
      omega
    · rw [hrecs, hsubrecs, countIdx_append,
        countIdx_singleton_pos _ s.currentQuestionIndex rfl]
      omega
    · rw [hrecs, hsubrecs, hRC, hRT]
      exact List.mem_append_right _ (List.mem_singleton_self _)
    · rw [hscore, hsubscore, hRC]

theorem filter_removeFirstIdx (i j : Nat) (l : List AnswerRecord) (hij : j ≠ i) :
    (removeFirstIdx i l).filter (fun x => x.questionIndex = j) =
      l.filter (fun x => x.questionIndex = j) := by
  induction l with
  | nil => rfl
  | cons a rest ih =>
      by_cases ha : a.questionIndex = i
      · rw [removeFirstIdx_cons_pos i a rest ha]
        have haj : ¬ (a.questionIndex = j) := by
          rw [ha]
          exact fun hh => hij hh.symm
        rw [List.filter_cons_of_neg (by simpa using haj)]
      · rw [removeFirstIdx_cons_neg i a rest ha]
        by_cases haj : a.questionIndex = j
        · rw [List.filter_cons_of_pos (by simpa using haj),
            List.filter_cons_of_pos (by simpa using haj), ih]
        · rw [List.filter_cons_of_neg (by simpa using haj),
            List.filter_cons_of_neg (by simpa using haj), ih]

/-- Claim C3 (amended): once the index has advanced past a question index q,
no submitAnswer call creates or modifies an answer record for q — a
successful submission only writes the now-current index — and when the
session is no longer active, submitAnswer fails with the Conflict-class
quizNotActive error. -/
theorem closed_question_records_immutable (s : QuizSession) (pid : String)
    (a now : Int) (q : Nat) (hq : q < s.currentQuestionIndex) :
    (∀ s' r, DoQuizService.submitAnswer s pid a now = .ok (s', r) →
      ∀ w, (s'.recsOf w).filter (fun x => x.questionIndex = q) =
        (s.recsOf w).filter (fun x => x.questionIndex = q)) ∧
    (s.isActive = false →
      DoQuizService.submitAnswer s pid a now = .error .quizNotActive ∧
      errClass .quizNotActive = .conflict) := by
  constructor
  · intro s' r hok w
    obtain ⟨hA, participant, hpart, qq, hqq, hQT, hQS, hTQ2, hCQ, hQST, hP, hIA, hIC, hQD,
      hRC, hRT, hRS, hAns, hSc⟩ := submitAnswer_ok_elim s pid a now s' r hok
    rw [QuizSession.recsOf, hAns, recsOfMap_mapSet]
    by_cases hw : participant.playerId = w
    · rw [if_pos hw]
      have hqne : q ≠ s.currentQuestionIndex := by omega
      unfold submittedRecs
      rw [List.filter_append]
      have hnew : ([(⟨s.currentQuestionIndex, a, decide (a = qq.correctAnswerIndex),
          now - s.questionStartTime⟩ : AnswerRecord)].filter
            (fun x => x.questionIndex = q)) = [] := by
        rw [List.filter_cons_of_neg (by simpa using fun hh => hqne hh.symm)]
        rfl
      rw [hnew, List.append_nil]
      cases hfind : (recsOfMap s.answers participant.playerId).find?
          (fun x => x.questionIndex = s.currentQuestionIndex) with
      | some e =>
          dsimp only
          rw [filter_removeFirstIdx s.currentQuestionIndex q _ hqne, QuizSession.recsOf, hw]
      | none =>
          dsimp only
          rw [QuizSession.recsOf, hw]
    · rw [if_neg hw]
      rfl
  · intro hinactive
    refine ⟨?_, rfl⟩
    unfold DoQuizService.submitAnswer
    rw [if_pos hinactive]

/-- Claim C10 (amended): an out-of-range option index (including the −1
sentinel) passes no validation: while the session is active a known
participant's submission is accepted, recorded with isCorrect false, and the
score never increases — it is unchanged when this is the participant's first
record for the current question, and decreases by the lost point when it
replaces a previously correct record. -/
theorem out_of_range_answer_accepted (s : QuizSession) (pid : String)
    (part : Participant) (a now : Int) (q : Question)
    (hact : s.isActive = true)
    (hpart : mapGet s.participants pid = some part)
    (hq : s.questions[s.currentQuestionIndex]? = some q)
    (hqlo : 0 ≤ q.correctAnswerIndex) (hqhi : q.correctAnswerIndex ≤ 3)
    (ha : a < 0 ∨ 3 < a) :
    (∃ s' r, DoQuizService.submitAnswer s pid a now = .ok (s', r)) ∧
    (∀ s' r, DoQuizService.submitAnswer s pid a now = .ok (s', r) →
      r.isCorrect = false ∧
      (⟨s.currentQuestionIndex, a, false, now - s.questionStartTime⟩ : AnswerRecord) ∈
        s'.recsOf part.playerId ∧
      r.currentScore ≤ s.scoreOf part.playerId ∧
      ((s.recsOf part.playerId).find?
          (fun x => x.questionIndex = s.currentQuestionIndex) = none →
        r.currentScore = s.scoreOf part.playerId)) := by
  have hne : a ≠ q.correctAnswerIndex := by omega
  have hdec : decide (a = q.correctAnswerIndex) = false := decide_eq_false hne
  constructor
  · unfold DoQuizService.submitAnswer
    rw [if_neg (by rw [hact]; simp), hpart, hq]
    dsimp only
    cases hfind : (recsOfMap s.answers part.playerId).find?
        (fun x => x.questionIndex = s.currentQuestionIndex) with
    | some e => exact ⟨_, _, rfl⟩
    | none => exact ⟨_, _, rfl⟩
  · intro s' r hok
    obtain ⟨hA, participant, hpart2, qq, hqq, hQT, hQS, hTQ2, hCQ, hQST, hP, hIA, hIC, hQD,
      hRC, hRT, hRS, hAns, hSc⟩ := submitAnswer_ok_elim s pid a now s' r hok
    have hsamepart : participant = part := by
      rw [hpart] at hpart2
      exact (Option.some.injEq _ _).mp hpart2.symm
    subst hsamepart
    have hsameq : q = qq := by
      have := hq.symm.trans hqq
      exact (Option.some.injEq _ _).mp this
    subst hsameq
    have hrecs : s'.recsOf participant.playerId =
        submittedRecs s participant.playerId
          ⟨s.currentQuestionIndex, a, decide (a = q.correctAnswerIndex),
            now - s.questionStartTime⟩ := by
      rw [QuizSession.recsOf, hAns, recsOfMap_mapSet, if_pos rfl]
    refine ⟨by rw [hRC, hdec], ?_, ?_, ?_⟩
    · rw [hrecs]
      unfold submittedRecs
      rw [hdec]
      cases hfind : (recsOfMap s.answers participant.playerId).find?
          (fun x => x.questionIndex = s.currentQuestionIndex) with
      | some e =>
          dsimp only
          exact List.mem_append_right _ (List.mem_singleton_self _)
      | none =>
          dsimp only
          exact List.mem_append_right _ (List.mem_singleton_self _)
    · rw [hRS, hdec]
      unfold submittedScore
      cases hfind : (recsOfMap s.answers participant.playerId).find?
          (fun x => x.questionIndex = s.currentQuestionIndex) with
      | some e =>
          dsimp only
          by_cases hb : e.isCorrect <;> simp [hb]
      | none =>
          dsimp only
          simp
    · intro hnone
      rw [hRS, hdec]
      unfold submittedScore
      rw [show (recsOfMap s.answers participant.playerId).find?
          (fun x => x.questionIndex = s.currentQuestionIndex) = none from hnone]
      simp

theorem insertByScoreDesc_perm (x : LeaderboardEntry) (l : List LeaderboardEntry) :
    List.Perm (insertByScoreDesc x l) (x :: l) := by
  induction l with
  | nil => exact List.Perm.refl _
  | cons y ys ih =>
      by_cases h : x.score ≤ y.score
      · rw [insertByScoreDesc, if_pos h]
        exact (ih.cons y).trans (List.Perm.swap x y ys)
      · rw [insertByScoreDesc, if_neg h]

theorem foldl_insertByScoreDesc_perm (l acc : List LeaderboardEntry) :
    List.Perm (l.foldl (fun acc x => insertByScoreDesc x acc) acc) (acc ++ l) := by
  induction l generalizing acc with
  | nil => simp
  | cons x xs ih =>
      rw [List.foldl_cons]
      refine (ih (insertByScoreDesc x acc)).trans ?_
      refine (List.Perm.append_right xs (insertByScoreDesc_perm x acc)).trans ?_
      exact List.perm_middle.symm

theorem sortByScoreDesc_perm (l : List LeaderboardEntry) :
    List.Perm (sortByScoreDesc l) l := by
  simpa using foldl_insertByScoreDesc_perm l []

theorem mem_insertByScoreDesc (x z : LeaderboardEntry) (l : List LeaderboardEntry)
    (h : z ∈ insertByScoreDesc x l) : z = x ∨ z ∈ l := by
  have := (insertByScoreDesc_perm x l).mem_iff.mp h
  simpa using this

theorem insertByScoreDesc_pairwise (x : LeaderboardEntry) (l : List LeaderboardEntry)
    (h : l.Pairwise (fun a b => b.score ≤ a.score)) :
    (insertByScoreDesc x l).Pairwise (fun a b => b.score ≤ a.score) := by
  induction l with
  | nil => simp [insertByScoreDesc]
  | cons y ys ih =>
      rw [List.pairwise_cons] at h
      obtain ⟨hy, hys⟩ := h
      by_cases hcmp : x.score ≤ y.score
      · rw [insertByScoreDesc, if_pos hcmp]
        rw [List.pairwise_cons]
        refine ⟨?_, ih hys⟩
        intro z hz
        rcases mem_insertByScoreDesc x z ys hz with hz | hz
        · rw [hz]
          exact hcmp
        · exact hy z hz
      · rw [insertByScoreDesc, if_neg hcmp]
        rw [List.pairwise_cons]
        refine ⟨?_, List.pairwise_cons.mpr ⟨hy, hys⟩⟩
        intro z hz
        rcases List.mem_cons.mp hz with hz | hz
        · rw [hz]
          omega
        · have := hy z hz
          omega

theorem sortByScoreDesc_pairwise (l : List LeaderboardEntry) :
    (sortByScoreDesc l).Pairwise (fun a b => b.score ≤ a.score) := by
  have hgen : ∀ (xs acc : List LeaderboardEntry),
      acc.Pairwise (fun a b => b.score ≤ a.score) →
      (xs.foldl (fun acc x => insertByScoreDesc x acc) acc).Pairwise
        (fun a b => b.score ≤ a.score) := by
    intro xs
    induction xs with
    | nil => intro acc hacc; exact hacc
    | cons x xs ih =>
        intro acc hacc
        rw [List.foldl_cons]
        exact ih (insertByScoreDesc x acc) (insertByScoreDesc_pairwise x acc hacc)
  exact hgen l [] List.Pairwise.nil

theorem no_high_score_below (l : List LeaderboardEntry) (y : LeaderboardEntry) (c : Int)
    (hy : ∀ z ∈ l, z.score ≤ y.score) (hc : y.score < c) :
    l.filter (fun e => e.score = c) = [] := by
  rw [List.filter_eq_nil_iff]
  intro z hz
  have := hy z hz
  simp only [decide_eq_true_eq]
  omega

theorem filter_insertByScoreDesc (x : LeaderboardEntry) (l : List LeaderboardEntry)
    (c : Int) (hsort : l.Pairwise (fun a b => b.score ≤ a.score)) :
    (insertByScoreDesc x l).filter (fun e => e.score = c) =
      if x.score = c then l.filter (fun e => e.score = c) ++ [x]
      else l.filter (fun e => e.score = c) := by
  induction l with
  | nil =>
      by_cases hx : x.score = c <;> simp [insertByScoreDesc, List.filter, hx]
  | cons y ys ih =>
      rw [List.pairwise_cons] at hsort
      obtain ⟨hy, hys⟩ := hsort
      by_cases hcmp : x.score ≤ y.score
      · rw [insertByScoreDesc, if_pos hcmp]
        by_cases hyc : y.score = c
        · rw [List.filter_cons_of_pos (by simpa using hyc),
            List.filter_cons_of_pos (by simpa using hyc), ih hys]
          by_cases hx : x.score = c <;> simp [hx]
        · rw [List.filter_cons_of_neg (by simpa using hyc),
            List.filter_cons_of_neg (by simpa using hyc), ih hys]
      · rw [insertByScoreDesc, if_neg hcmp]
        by_cases hx : x.score = c
        · rw [if_pos hx]
          rw [List.filter_cons_of_pos (by simpa using hx)]
          have hempty : (y :: ys).filter (fun e => e.score = c) = [] := by
            refine no_high_score_below (y :: ys) y c ?_ (by omega)
            intro z hz
            rcases List.mem_cons.mp hz with hz | hz
            · rw [hz]
            · exact hy z hz
          rw [hempty]
          rfl
        · rw [if_neg hx, List.filter_cons_of_neg (by simpa using hx)]

theorem filter_sortByScoreDesc (l : List LeaderboardEntry) (c : Int) :
    (sortByScoreDesc l).filter (fun e => e.score = c) =
      l.filter (fun e => e.score = c) := by
  have hgen : ∀ (xs acc : List LeaderboardEntry),
      acc.Pairwise (fun a b => b.score ≤ a.score) →
      (xs.foldl (fun acc x => insertByScoreDesc x acc) acc).filter (fun e => e.score = c) =
        acc.filter (fun e => e.score = c) ++ xs.filter (fun e => e.score = c) := by
    intro xs
    induction xs with
    | nil => intro acc hacc; simp
    | cons x xs ih =>
        intro acc hacc
        rw [List.foldl_cons, ih (insertByScoreDesc x acc)
          (insertByScoreDesc_pairwise x acc hacc),
          filter_insertByScoreDesc x acc c hacc]
        by_cases hx : x.score = c
        · rw [if_pos hx, List.filter_cons_of_pos (by simpa using hx)]
          simp
        · rw [if_neg hx, List.filter_cons_of_neg (by simpa using hx)]
  simpa using hgen l [] List.Pairwise.nil

/-- Claim C5: the leaderboard lists every current participant exactly once
(it is a permutation of the per-participant rows taken in join order), is
sorted non-increasing by score, and rows with equal scores keep their
original join order (the rows at any fixed score are exactly the unsorted
rows at that score, in order). -/
theorem leaderboard_complete_sorted_stable (s : QuizSession) :
    List.Perm (DoQuizService.getLeaderboard s) (leaderboardEntries s) ∧
    (DoQuizService.getLeaderboard s).length = s.participants.length ∧
    (DoQuizService.getLeaderboard s).Pairwise (fun a b => b.score ≤ a.score) ∧
    ∀ c, (DoQuizService.getLeaderboard s).filter (fun e => e.score = c) =
      (leaderboardEntries s).filter (fun e => e.score = c) := by
  refine ⟨sortByScoreDesc_perm (leaderboardEntries s), ?_,
    sortByScoreDesc_pairwise (leaderboardEntries s),
    fun c => filter_sortByScoreDesc (leaderboardEntries s) c⟩
  unfold DoQuizService.getLeaderboard
  rw [(sortByScoreDesc_perm (leaderboardEntries s)).length_eq]
  simp [leaderboardEntries]

/-- An answer record stored by the RoomService variant: it also keeps the
server-measured elapsed time next to the reported one. -/
structure RSAnswer where
  questionIndex : Nat
  answer : Int
  isCorrect : Bool
  timeSpent : Int
  serverTimeSpent : Int
deriving DecidableEq, Repr

/-- A RoomService participant: stable player id, display name, answer list,
cumulative score, join timestamp, ready flag. -/
structure RSParticipant where
  playerId : String
  name : String
  answers : List RSAnswer
  score : Int
  joinedAt : Int
  isReady : Bool
deriving DecidableEq, Repr

/-- A room held in RoomService.rooms.  The quiz snapshot is kept as its title
and question list; questionStartTime is 0 until the quiz starts (the source
holds null there, and only reads the field while the quiz is active). -/
structure Room where
  quizId : String
  hostId : String
  participants : SMap RSParticipant
  currentQuestion : Nat
  quizTitle : String
  questions : List Question
  isActive : Bool
  isCompleted : Bool
  startTime : Int
  questionStartTime : Int
  gameSessionId : String
  maxParticipants : Nat
  questionDuration : Int
deriving DecidableEq, Repr

/-- The alphabet room codes and player ids are drawn from. -/
def roomCodeChars : List Char := "ABCDEFGHIJKLMNOPQRSTUVWXYZ0123456789".toList

/-- One candidate code built from six random draws (charAt of each index). -/
def buildCode (idxs : List Nat) : String :=
  String.mk (idxs.map (fun i => roomCodeChars.getD i 'A'))

/-- RoomService.generateRoomCode: build a candidate from random draws and
retry while it collides with a live room.  The unbounded retry loop of the
source is modelled by the (arbitrarily long) list of draws; none is returned
only when every provided draw collides. -/
def RoomService.generateRoomCode (rooms : SMap Room) : List (List Nat) → Option String
  | [] => none
  | idxs :: rest =>
      let result := buildCode idxs
      if (mapGet rooms result).isSome then RoomService.generateRoomCode rooms rest
      else some result

/-- RoomService.createRoom: resolve the quiz (given here already fetched),
generate a fresh code and install the new empty Lobby room. -/
def RoomService.createRoom (rooms : SMap Room) (quizId hostId : String)
    (quizTitle : String) (questions : List Question) (gameSessionId : String)
    (draws : List (List Nat)) : Option (String × SMap Room) :=
  match RoomService.generateRoomCode rooms draws with
  | none => none
  | some roomCode =>
      some (roomCode, mapSet rooms roomCode
        { quizId := quizId
          hostId := hostId
          participants := []
          currentQuestion := 0
          quizTitle := quizTitle
          questions := questions
          isActive := false
          isCompleted := false
          startTime := 0
          questionStartTime := 0
          gameSessionId := gameSessionId
          maxParticipants := 50
          questionDuration := 30000 })

/-- RoomService.joinRoom: unknown code, completed room, full room and
duplicate connection are rejected in that order; otherwise the participant
is appended (Map.set with a fresh key preserves join order). -/
def RoomService.joinRoom (rooms : SMap Room) (roomCode socketId name playerId : String)
    (now : Int) : Except Err (SMap Room × Room) :=
  match mapGet rooms roomCode with
  | none => .error .roomNotFound
  | some room =>
    if room.isCompleted then .error .quizEnded
    else if room.maxParticipants ≤ room.participants.length then .error .roomFull
    else if (mapGet room.participants socketId).isSome then .error .alreadyJoined
    else
      let participant : RSParticipant :=
        { playerId := playerId
          name := name
          answers := []
          score := 0
          joinedAt := now
          isReady := false }
      let room' := { room with participants := mapSet room.participants socketId participant }
      .ok (mapSet rooms roomCode room', room')

/-- RoomService.startQuiz: room must exist, caller must be the stored host,
quiz must not be active already and at least one participant must be present;
then the room becomes active at question 0. -/
def RoomService.startQuiz (rooms : SMap Room) (roomCode hostId : String) (now : Int) :
    Except Err (SMap Room × Room) :=
  match mapGet rooms roomCode with
  | none => .error .roomNotFound
  | some room =>
    if room.hostId ≠ hostId then .error .notHost
    else if room.isActive then .error .alreadyActive
    else if room.participants.length = 0 then .error .noParticipants
    else
      let room' := { room with
        isActive := true
        startTime := now
        currentQuestion := 0
        questionStartTime := now }
      .ok (mapSet rooms roomCode room', room')

/-- Result payload of the RoomService submitAnswer. -/
structure RSSubmitResult where
  isCorrect : Bool
  timeSpent : Int
  serverTimeSpent : Int
  currentScore : Int
  playerId : String
deriving DecidableEq, Repr

/-- RoomService.submitAnswer: rejects resubmission for the current question
outright; elapsed time is measured from the server-held question start, and
a caller-supplied nonzero clientTimeTaken is reported instead only when it
deviates from the server measurement by strictly less than 5000 ms
(JavaScript reads 0 or null as false in the guard). -/
def RoomService.submitAnswer (rooms : SMap Room) (roomCode socketId : String)
    (answer : Int) (clientTimeTaken : Option Int) (now : Int) :
    Except Err (SMap Room × RSSubmitResult) :=
  match mapGet rooms roomCode with
  | none => .error .roomNotFound
  | some room =>
    if room.isActive = false then .error .quizNotActive
    else match mapGet room.participants socketId with
    | none => .error .participantNotFound
    | some participant =>
      if (participant.answers.find? (fun a => a.questionIndex = room.currentQuestion)).isSome
      then .error .alreadyAnswered
      else match room.questions[room.currentQuestion]? with
      | none => .error .noActiveQuestion
      | some question =>
        let isCorrect : Bool := answer = question.correctAnswerIndex
        let serverTimeSpent : Int := now - room.questionStartTime
        let timeSpent : Int :=
          match clientTimeTaken with
          | some ct =>
              if ct ≠ 0 ∧ (ct - serverTimeSpent).natAbs < 5000 then ct else serverTimeSpent
          | none => serverTimeSpent
        let participant' := { participant with
          answers := participant.answers ++
            [⟨room.currentQuestion, answer, isCorrect, timeSpent, serverTimeSpent⟩]
          score := if isCorrect then participant.score + 1 else participant.score }
        let room' := { room with
          participants := mapSet room.participants socketId participant' }
        .ok (mapSet rooms roomCode room',
          ⟨isCorrect, timeSpent, serverTimeSpent, participant'.score, participant.playerId⟩)

theorem mapSet_eq_append {α : Type} (m : SMap α) (k : String) (v : α)
    (h : mapGet m k = none) : mapSet m k v = m ++ [(k, v)] := by
  induction m with
  | nil => rfl
  | cons p rest ih =>
      obtain ⟨k₀, v₀⟩ := p
      by_cases hk : k₀ = k
      · rw [mapGet, if_pos hk] at h
        cases h
      · rw [mapGet, if_neg hk] at h
        rw [mapSet, if_neg hk, ih h]
        rfl

/-- Claim C6: for a room in Lobby state, startQuiz by the host with zero
participants fails with the Conflict-class noParticipants error (the state is
untouched since nothing is written on a thrown error), a non-host caller gets
the Forbidden-class notHost error, and the call succeeds exactly for the host
with at least one participant present, activating question 0. -/
theorem startQuiz_host_and_participants (rooms : SMap Room) (roomCode hostId : String)
    (now : Int) (room : Room) (hroom : mapGet rooms roomCode = some room)
    (hlobby : room.isActive = false) :
    (room.hostId = hostId → room.participants.length = 0 →
      RoomService.startQuiz rooms roomCode hostId now = .error .noParticipants ∧
      errClass .noParticipants = .conflict) ∧
    (room.hostId ≠ hostId →
      RoomService.startQuiz rooms roomCode hostId now = .error .notHost ∧
      errClass .notHost = .forbidden) ∧
    (∀ rooms' room', RoomService.startQuiz rooms roomCode hostId now = .ok (rooms', room') →
      room.hostId = hostId ∧ 1 ≤ room.participants.length) ∧
    (room.hostId = hostId → 1 ≤ room.participants.length →
      RoomService.startQuiz rooms roomCode hostId now =
        .ok (mapSet rooms roomCode
          { room with
              isActive := true
              startTime := now
              currentQuestion := 0
              questionStartTime := now },
          { room with
              isActive := true
              startTime := now
              currentQuestion := 0
              questionStartTime := now })) := by
  refine ⟨?_, ?_, ?_, ?_⟩
  · intro hhost hzero
    refine ⟨?_, rfl⟩
    unfold RoomService.startQuiz
    rw [hroom]
    dsimp only
    rw [if_neg (by simp [hhost]), if_neg (by simp [hlobby]), if_pos hzero]
  · intro hhost
    refine ⟨?_, rfl⟩
    unfold RoomService.startQuiz
    rw [hroom]
    dsimp only
    rw [if_pos (fun hh => hhost hh)]
  · intro rooms' room' hok
    unfold RoomService.startQuiz at hok
    rw [hroom] at hok
    dsimp only at hok
    split at hok
    · cases hok
    · rename_i hhost
      split at hok
      · cases hok
      · split at hok
        · cases hok
        · rename_i hzero
          refine ⟨not_not.mp hhost, ?_⟩
          omega
  · intro hhost hpos
    unfold RoomService.startQuiz
    rw [hroom]
    dsimp only
    rw [if_neg (by simp [hhost]), if_neg (by simp [hlobby]), if_neg (by omega)]

/-- Claim C7: joinRoom fails with NotFound for an unknown code, Conflict for
a Completed room, CapacityExceeded at the participant bound, Conflict for a
connection that is already a participant, and otherwise appends the new
participant at the end of the map, preserving join order. -/
theorem joinRoom_cases (rooms : SMap Room) (roomCode socketId name playerId : String)
    (now : Int) :
    (mapGet rooms roomCode = none →
      RoomService.joinRoom rooms roomCode socketId name playerId now =
        .error .roomNotFound ∧ errClass .roomNotFound = .notFound) ∧
    (∀ room, mapGet rooms roomCode = some room →
      (room.isCompleted = true →
        RoomService.joinRoom rooms roomCode socketId name playerId now =
          .error .quizEnded ∧ errClass .quizEnded = .conflict) ∧
      (room.isCompleted = false → room.maxParticipants ≤ room.participants.length →
        RoomService.joinRoom rooms roomCode socketId name playerId now =
          .error .roomFull ∧ errClass .roomFull = .capacityExceeded) ∧
      (room.isCompleted = false → room.participants.length < room.maxParticipants →
        (mapGet room.participants socketId).isSome →
        RoomService.joinRoom rooms roomCode socketId name playerId now =
          .error .alreadyJoined ∧ errClass .alreadyJoined = .conflict) ∧
      (room.isCompleted = false → room.participants.length < room.maxParticipants →
        mapGet room.participants socketId = none →
        RoomService.joinRoom rooms roomCode socketId name playerId now =
          .ok (mapSet rooms roomCode
            { room with participants := room.participants ++
                [(socketId, { playerId := playerId
                              name := name
                              answers := []
                              score := 0
                              joinedAt := now
                              isReady := false })] },
            { room with participants := room.participants ++
                [(socketId, { playerId := playerId
                              name := name
                              answers := []
                              score := 0
                              joinedAt := now
                              isReady := false })] }))) := by
  constructor
  · intro hnone
    refine ⟨?_, rfl⟩
    unfold RoomService.joinRoom
    rw [hnone]
  · intro room hroom
    refine ⟨?_, ?_, ?_, ?_⟩
    · intro hdone
      refine ⟨?_, rfl⟩
      unfold RoomService.joinRoom
      rw [hroom]
      dsimp only
      rw [if_pos hdone]
    · intro hdone hfull
      refine ⟨?_, rfl⟩
      unfold RoomService.joinRoom
      rw [hroom]
      dsimp only
      rw [if_neg (by simp [hdone]), if_pos hfull]
    · intro hdone hroomy hdup
      refine ⟨?_, rfl⟩
      unfold RoomService.joinRoom
      rw [hroom]
      dsimp only
      rw [if_neg (by simp [hdone]), if_neg (by omega), if_pos hdup]
    · intro hdone hroomy hfresh
      unfold RoomService.joinRoom
      rw [hroom]
      dsimp only
      rw [if_neg (by simp [hdone]), if_neg (by omega),
        if_neg (by simp [hfresh]), mapSet_eq_append room.participants socketId _ hfresh]

theorem buildCode_length (idxs : List Nat) : (buildCode idxs).length = idxs.length := by
  simp [buildCode, String.length]

theorem buildCode_chars (idxs : List Nat) (hlt : ∀ i ∈ idxs, i < 36) :
    ∀ ch ∈ (buildCode idxs).toList, ch ∈ roomCodeChars := by
  intro ch hch
  have hlen : roomCodeChars.length = 36 := by decide
  simp only [buildCode, String.toList] at hch
  obtain ⟨i, hi, hchi⟩ := List.mem_map.mp hch
  rw [← hchi, List.getD_eq_getElem roomCodeChars 'A' (by rw [hlen]; exact hlt i hi)]
  exact List.getElem_mem _

theorem generateRoomCode_spec (rooms : SMap Room) (draws : List (List Nat)) (code : String)
    (hdraws : ∀ g ∈ draws, g.length = 6 ∧ ∀ i ∈ g, i < 36)
    (h : RoomService.generateRoomCode rooms draws = some code) :
    code.length = 6 ∧ (∀ ch ∈ code.toList, ch ∈ roomCodeChars) ∧
    mapGet rooms code = none := by
  induction draws with
  | nil => cases h
  | cons g rest ih =>
      unfold RoomService.generateRoomCode at h
      dsimp only at h
      split at h
      · exact ih (fun g hg => hdraws g (List.mem_cons_of_mem _ hg)) h
      · rename_i hfree
        rw [Option.some.injEq] at h
        subst h
        obtain ⟨h6, hlt⟩ := hdraws g (List.mem_cons_self g rest)
        refine ⟨?_, buildCode_chars g hlt, ?_⟩
        · rw [buildCode_length, h6]
        · exact Option.not_isSome_iff_eq_none.mp hfree

/-- Claim C9: every room code returned by createRoom is exactly 6 characters
drawn from the uppercase alphanumeric alphabet, and its code is not that of
any room live at the time of creation (each random draw supplies 6 indices
into the 36-character alphabet). -/
theorem createRoom_code_wellformed (rooms : SMap Room)
    (quizId hostId quizTitle gameSessionId : String) (questions : List Question)
    (draws : List (List Nat)) (code : String) (rooms' : SMap Room)
    (hdraws : ∀ g ∈ draws, g.length = 6 ∧ ∀ i ∈ g, i < 36)
    (h : RoomService.createRoom rooms quizId hostId quizTitle questions gameSessionId draws
      = some (code, rooms')) :
    code.length = 6 ∧ (∀ ch ∈ code.toList, ch ∈ roomCodeChars) ∧
    mapGet rooms code = none := by
  have hgen : RoomService.generateRoomCode rooms draws = some code := by
    unfold RoomService.createRoom at h
    cases hg : RoomService.generateRoomCode rooms draws with
    | none =>
        rw [hg] at h
        cases h
    | some c =>
        rw [hg] at h
        dsimp only at h
        rw [Option.some.injEq, Prod.mk.injEq] at h
        rw [h.1]
  exact generateRoomCode_spec rooms draws code hdraws hgen

theorem rs_submitAnswer_ok_elim (rooms : SMap Room) (roomCode socketId : String)
    (answer : Int) (ct : Option Int) (now : Int) (rooms' : SMap Room)
    (res : RSSubmitResult)
    (h : RoomService.submitAnswer rooms roomCode socketId answer ct now = .ok (rooms', res)) :
    ∃ room, mapGet rooms roomCode = some room ∧ room.isActive = true ∧
    ∃ participant, mapGet room.participants socketId = some participant ∧
      (participant.answers.find? (fun a => a.questionIndex = room.currentQuestion))
        = none ∧
    ∃ question, room.questions[room.currentQuestion]? = some question ∧
      res.isCorrect = decide (answer = question.correctAnswerIndex) ∧
      res.serverTimeSpent = now - room.questionStartTime ∧
      (ct = none → res.timeSpent = now - room.questionStartTime) ∧
      (∀ c, ct = some c → res.timeSpent =
        (if c ≠ 0 ∧ (c - (now - room.questionStartTime)).natAbs < 5000 then c
         else now - room.questionStartTime)) ∧
      res.currentScore = (if decide (answer = question.correctAnswerIndex) then
          participant.score + 1 else participant.score) ∧
      res.playerId = participant.playerId := by
  unfold RoomService.submitAnswer at h
  split at h
  · cases h
  · rename_i room hroom
    split at h
    · cases h
    · rename_i hact
      have hact' : room.isActive = true := by
        revert hact
        cases room.isActive <;> simp
      split at h
      · cases h
      · rename_i participant hpart
        split at h
        · cases h
        · rename_i hfresh
          split at h
          · cases h
          · rename_i question hq
            refine ⟨room, hroom, hact', participant, hpart,
              Option.not_isSome_iff_eq_none.mp hfresh, question, hq, ?_⟩
            dsimp only at h
            rw [Except.ok.injEq, Prod.mk.injEq] at h
            obtain ⟨hrooms, hres⟩ := h
            subst hres
            refine ⟨rfl, rfl, ?_, ?_, rfl, rfl⟩
            · intro hct
              subst hct
              rfl
            · intro c hct
              subst hct
              rfl

/-- Claim C8 (amended): on an accepted submission the reported timeSpent
equals the caller-supplied client value exactly when that value is nonzero
and deviates from the server-measured elapsed time by strictly less than
5000 ms, and equals the server-measured value otherwise; correctness and the
returned score are identical across all timing inputs, so they never depend
on either timing value. -/
theorem reported_time_client_window (rooms : SMap Room) (roomCode socketId : String)
    (answer : Int) (ct : Option Int) (now : Int) (rooms' : SMap Room)
    (res : RSSubmitResult)
    (h : RoomService.submitAnswer rooms roomCode socketId answer ct now = .ok (rooms', res)) :
    (ct = none → res.timeSpent = res.serverTimeSpent) ∧
    (∀ c, ct = some c →
      (c ≠ 0 ∧ (c - res.serverTimeSpent).natAbs < 5000 → res.timeSpent = c) ∧
      (c = 0 ∨ 5000 ≤ (c - res.serverTimeSpent).natAbs →
        res.timeSpent = res.serverTimeSpent)) ∧
    (∀ ct₂ now₂ rooms₂ res₂,
      RoomService.submitAnswer rooms roomCode socketId answer ct₂ now₂ = .ok (rooms₂, res₂) →
      res₂.isCorrect = res.isCorrect ∧ res₂.currentScore = res.currentScore) := by
  obtain ⟨room, hroom, hact, participant, hpart, hfresh, question, hq, hic, hst, htsnone,
    htssome, hcs, hpid⟩ :=
    rs_submitAnswer_ok_elim rooms roomCode socketId answer ct now rooms' res h
  refine ⟨?_, ?_, ?_⟩
  · intro hct
    rw [hst]
    exact htsnone hct
  · intro c hct
    rw [hst]
    constructor
    · intro ⟨hc0, hcw⟩
      rw [htssome c hct, if_pos ⟨hc0, hcw⟩]
    · intro hcase
      rw [htssome c hct, if_neg ?_]
      rcases hcase with hc0 | hbig
      · intro ⟨hne, _⟩
        exact hne hc0
      · intro ⟨_, hlt⟩
        omega
  · intro ct₂ now₂ rooms₂ res₂ h₂
    obtain ⟨room₂, hroom₂, hact₂, participant₂, hpart₂, hfresh₂, question₂, hq₂, hic₂,
      hst₂, htsnone₂, htssome₂, hcs₂, hpid₂⟩ :=
      rs_submitAnswer_ok_elim rooms roomCode socketId answer ct₂ now₂ rooms₂ res₂ h₂
    have hsameroom : room₂ = room := by
      rw [hroom] at hroom₂
      exact (Option.some.injEq _ _).mp hroom₂.symm
    subst hsameroom
    have hsamepart : participant₂ = participant := by
      rw [hpart] at hpart₂
      exact (Option.some.injEq _ _).mp hpart₂.symm
    subst hsamepart
    have hsameq : question₂ = question := by
      rw [hq] at hq₂
      exact (Option.some.injEq _ _).mp hq₂.symm
    subst hsameq
    exact ⟨by rw [hic₂, hic], by rw [hcs₂, hcs]⟩

/-- Example question with correct option 0. -/
def exQuestion : Question :=
  { questionText := "Capital of France?"
    options := ["Paris", "London", "Rome", "Berlin"]
    correctAnswerIndex := 0 }

/-- Example question with correct option 1. -/
def exQuestion2 : Question :=
  { questionText := "Two plus two?"
    options := ["3", "4", "5", "6"]
    correctAnswerIndex := 1 }

/-- One participant on socket s1. -/
def exParticipants : SMap Participant := [("s1", { playerId := "P1", name := "Alice" })]

/-- A one-question session just started. -/
def exSession0 : QuizSession := DoQuizService.startQuiz "Demo" [exQuestion] exParticipants 0

/-- The session after Alice answers option 0 (correct) at t=1000. -/
def exSessionAnswered : QuizSession :=
  match DoQuizService.submitAnswer exSession0 "s1" 0 1000 with
  | .ok (s, _) => s
  | .error _ => exSession0

/-- The session after Alice resubmits option 1 (wrong) at t=2000. -/
def exSessionResub : QuizSession :=
  match DoQuizService.submitAnswer exSessionAnswered "s1" 1 2000 with
  | .ok (s, _) => s
  | .error _ => exSessionAnswered

/-- A two-question session just started. -/
def exSession2q : QuizSession :=
  DoQuizService.startQuiz "Demo" [exQuestion, exQuestion2] exParticipants 0

/-- The two-question session after the engine closes question 0 and starts
question 1. -/
def exSessionAfterNext : QuizSession :=
  ((DoQuizService.nextQuestion exSession2q 1000).1).getD exSession2q

/-- The final results of completing the one-question session with no answers
submitted. -/
def exResults0 : FinalResults :=
  ((DoQuizService.nextQuestion exSession0 5000).2).getD
    { quizTitle := "", totalQuestions := 0, participants := [] }

/-- The returned score of a submission outcome, when accepted. -/
def submitOutcomeScore : Except Err (QuizSession × SubmitResult) → Option Int
  | .ok (_, r) => some r.currentScore
  | .error _ => none

/-- Whether a submission outcome was accepted. -/
def submitAccepted : Except Err (QuizSession × SubmitResult) → Bool
  | .ok _ => true
  | .error _ => false

/-- The reported timeSpent of a RoomService submission outcome, when accepted. -/
def rsSubmittedTime : Except Err (SMap Room × RSSubmitResult) → Option Int
  | .ok (_, res) => some res.timeSpent
  | .error _ => none

/-- Participant Alice as stored by the RoomService. -/
def exRSParticipant : RSParticipant :=
  { playerId := "P1"
    name := "Alice"
    answers := []
    score := 0
    joinedAt := 0
    isReady := false }

/-- An active one-question room with Alice in it, question started at t=0. -/
def exRoomActive : Room :=
  { quizId := "quiz1"
    hostId := "H1"
    participants := [("s1", exRSParticipant)]
    currentQuestion := 0
    quizTitle := "Demo"
    questions := [exQuestion]
    isActive := true
    isCompleted := false
    startTime := 0
    questionStartTime := 0
    gameSessionId := "GS1"
    maxParticipants := 50
    questionDuration := 30000 }

/-- The registry holding the active example room. -/
def exRooms : SMap Room := [("ROOMA1", exRoomActive)]

/-- A Lobby room with no participants. -/
def exRoomLobby : Room :=
  { exRoomActive with
      isActive := false
      participants := [] }

/-- The registry holding the Lobby example room. -/
def exRoomsLobby : SMap Room := [("LOBBY1", exRoomLobby)]

/-- The registry after the boundary-value submission below. -/
def exRoomsAfterSubmit : SMap Room :=
  match RoomService.submitAnswer exRooms "ROOMA1" "s1" 0 (some 5000) 0 with
  | .ok (m, _) => m
  | .error _ => exRooms

/-- Claim C3, counterexample to the claim as stated: after the engine has
closed question 0 and advanced the index past it, a submitAnswer call for
the room is accepted (recorded against the new current question) instead of
failing with Conflict. -/
theorem submit_after_advance_not_conflict :
    exSessionAfterNext.currentQuestionIndex = 1 ∧
    submitAccepted (DoQuizService.submitAnswer exSessionAfterNext "s1" 0 2000) = true := by
  decide

/-- Claim C8, counterexample to the claim as stated: a client-measured value
deviating from the server measurement by exactly 5000 ms (no more than
5000 ms) is not used; the server value is reported. -/
theorem client_time_at_boundary_rejected :
    ((5000 : Int) - 0).natAbs ≤ 5000 ∧
    rsSubmittedTime (RoomService.submitAnswer exRooms "ROOMA1" "s1" 0 (some 5000) 0)
      = some 0 ∧
    ¬ rsSubmittedTime (RoomService.submitAnswer exRooms "ROOMA1" "s1" 0 (some 5000) 0)
      = some 5000 := by
  decide

/-- Claim C10, counterexample to the claim as stated: with a correct answer
already recorded (score 1), submitting the out-of-range sentinel −1 for the
same open question is accepted and changes the score to 0, so the score is
not left unchanged. -/
theorem sentinel_resubmission_changes_score :
    exSessionAnswered.scoreOf "P1" = 1 ∧
    ((-1 : Int) < 0 ∨ 3 < (-1 : Int)) ∧
    submitOutcomeScore (DoQuizService.submitAnswer exSessionAnswered "s1" (-1) 3000)
      = some 0 := by
  decide

/-- Witness for claim C1 at a concrete completed run. -/
theorem completion_answer_sheets_complete_witness :
    DoQuizService.nextQuestion exSession0 5000 = (none, some exResults0) ∧
    ∀ pr ∈ exResults0.participants, pr.answers.length = exResults0.totalQuestions ∧
      ∀ k, k < exResults0.totalQuestions → countIdx pr.answers k = 1 :=
  ⟨by decide,
   (completion_answer_sheets_complete exSession0
     (ReachableSession.start "Demo" [exQuestion] exParticipants 0 (by decide))
     5000 exResults0 (by decide)).1⟩

/-- Witness for claim C2 at a concrete resubmission. -/
theorem resubmission_replaces_witness :
    (exSessionResub.recsOf "P1").length = (exSessionAnswered.recsOf "P1").length ∧
    countIdx (exSessionResub.recsOf "P1") exSessionAnswered.currentQuestionIndex = 1 ∧
    (⟨exSessionAnswered.currentQuestionIndex, 1, false, 2000⟩ : AnswerRecord) ∈
      exSessionResub.recsOf "P1" ∧
    exSessionResub.scoreOf "P1" = exSessionAnswered.scoreOf "P1" - 1 + 0 := by
  have hreach : ReachableSession exSessionAnswered :=
    ReachableSession.step exSession0 exSessionAnswered
      (ReachableSession.start "Demo" [exQuestion] exParticipants 0 (by decide))
      (SessionStep.submit exSession0 exSessionAnswered "s1" 0 1000
        ⟨true, 1000, 1, "s1"⟩ (by decide))
  exact (resubmission_replaces_and_adjusts_score exSessionAnswered hreach).2
    "s1" { playerId := "P1", name := "Alice" } ⟨0, 0, true, 1000⟩ 1 2000
    exSessionResub ⟨false, 2000, 0, "s1"⟩ (by decide) (by decide) (by decide)

/-- Witness for claim C3 at a concrete advanced session. -/
theorem closed_question_records_immutable_witness :
    (∀ s' r, DoQuizService.submitAnswer exSessionAfterNext "s1" 0 2000 = .ok (s', r) →
      ∀ w, (s'.recsOf w).filter (fun x => x.questionIndex = 0) =
        (exSessionAfterNext.recsOf w).filter (fun x => x.questionIndex = 0)) ∧
    (exSessionAfterNext.isActive = false →
      DoQuizService.submitAnswer exSessionAfterNext "s1" 0 2000 = .error .quizNotActive ∧
      errClass .quizNotActive = .conflict) :=
  closed_question_records_immutable exSessionAfterNext "s1" 0 2000 0 (by decide)

/-- Witness for claim C4 at a concrete reachable session and participant. -/
theorem score_eq_correct_count_witness :
    exSessionAnswered.scoreOf "P1" =
      (countCorrect (exSessionAnswered.recsOf "P1") : Int) ∧
    exSessionAnswered.scoreOf "P1" ≤ (exSessionAnswered.totalQuestions : Int) := by
  have hreach : ReachableSession exSessionAnswered :=
    ReachableSession.step exSession0 exSessionAnswered
      (ReachableSession.start "Demo" [exQuestion] exParticipants 0 (by decide))
      (SessionStep.submit exSession0 exSessionAnswered "s1" 0 1000
        ⟨true, 1000, 1, "s1"⟩ (by decide))
  exact score_eq_correct_count_and_bounded exSessionAnswered hreach
    ("s1", { playerId := "P1", name := "Alice" }) (by decide)

/-- Witness for claim C6: the host starting the empty Lobby room gets the
Conflict-class noParticipants error. -/
theorem startQuiz_host_and_participants_witness :
    exRoomLobby.isActive = false ∧ exRoomLobby.participants.length = 0 ∧
    RoomService.startQuiz exRoomsLobby "LOBBY1" "H1" 99 = .error .noParticipants ∧
    errClass .noParticipants = .conflict :=
  ⟨by decide, by decide,
   (startQuiz_host_and_participants exRoomsLobby "LOBBY1" "H1" 99 exRoomLobby
     (by decide) (by decide)).1 (by decide) (by decide)⟩

/-- Witness for claim C8: at the 5000 ms boundary the theorem reports the
server-measured value. -/
theorem reported_time_client_window_witness :
    RoomService.submitAnswer exRooms "ROOMA1" "s1" 0 (some 5000) 0 =
      .ok (exRoomsAfterSubmit, ⟨true, 0, 0, 1, "P1"⟩) ∧
    (⟨true, 0, 0, 1, "P1"⟩ : RSSubmitResult).timeSpent =
      (⟨true, 0, 0, 1, "P1"⟩ : RSSubmitResult).serverTimeSpent :=
  ⟨by decide,
   ((reported_time_client_window exRooms "ROOMA1" "s1" 0 (some 5000) 0 exRoomsAfterSubmit
     ⟨true, 0, 0, 1, "P1"⟩ (by decide)).2.1 5000 rfl).2 (Or.inr (by decide))⟩

/-- The random draws used by the createRoom witness. -/
def exDraws : List (List Nat) := [[0, 1, 2, 3, 4, 5]]

/-- The registry created by the createRoom witness call. -/
def exCreatedRooms : SMap Room :=
  match RoomService.createRoom [] "quiz1" "H1" "Demo" [exQuestion] "GS1" exDraws with
  | some (_, m) => m
  | none => []

/-- Witness for claim C9 at one concrete draw. -/
theorem createRoom_code_wellformed_witness :
    (∀ g ∈ exDraws, g.length = 6 ∧ ∀ i ∈ g, i < 36) ∧
    ("ABCDEF".length = 6 ∧ (∀ ch ∈ "ABCDEF".toList, ch ∈ roomCodeChars) ∧
      mapGet ([] : SMap Room) "ABCDEF" = none) :=
  ⟨by decide,
   createRoom_code_wellformed [] "quiz1" "H1" "Demo" "GS1" [exQuestion] exDraws
     "ABCDEF" exCreatedRooms (by decide) (by decide)⟩

/-- Witness for claim C10: the sentinel −1 on a fresh question is accepted,
recorded incorrect, and leaves the score unchanged. -/
theorem out_of_range_answer_accepted_witness :
    (∃ s' r, DoQuizService.submitAnswer exSession0 "s1" (-1) 500 = .ok (s', r)) ∧
    (∀ s' r, DoQuizService.submitAnswer exSession0 "s1" (-1) 500 = .ok (s', r) →
      r.isCorrect = false ∧
      (⟨exSession0.currentQuestionIndex, -1, false,
          500 - exSession0.questionStartTime⟩ : AnswerRecord) ∈ s'.recsOf "P1" ∧
      r.currentScore ≤ exSession0.scoreOf "P1" ∧
      ((exSession0.recsOf "P1").find?
          (fun x => x.questionIndex = exSession0.currentQuestionIndex) = none →
        r.currentScore = exSession0.scoreOf "P1")) :=
  out_of_range_answer_accepted exSession0 "s1" { playerId := "P1", name := "Alice" }
    (-1) 500 exQuestion (by decide) (by decide) (by decide) (by decide) (by decide)
    (Or.inl (by decide))
